import Mathlib

/-!
Verification of mc-pay-backend.

A shallow embedding of `server.js`: the `POST /mc-pay` webhook (HMAC signature
check, payload validation, insertion into the bounded in-memory ledger) and the
`GET /balance` query, followed by the properties proved about them.

Conventions of the embedding

* A JavaScript string is a Lean `String`, a sequence of Unicode scalar values;
  its `length` counts UTF-16 code units (`jsLength`) and `Buffer.from` encodes
  it as UTF-8 (`bufferFrom`). Header values, which Node decodes as latin1, are
  such strings; strings with unpaired surrogates are outside the model.
* A JavaScript number is an IEEE-754 binary64 value (`JsNumber`); `+` is
  `JsNumber.add`, the exact sum rounded to nearest, ties to even.
* `mcPay` is the handler of `POST /mc-pay` on a request whose body `express.raw`
  has parsed into a `Buffer` (line 29 of the source:
  `const rawBody = req.body; // Buffer`), a list of bytes; `postMcPay` is the
  handler on any request, the ones whose `req.body` is not a `Buffer` included.
* Library functions with large tables (`crypto.createHmac`, `JSON.parse`,
  `String.prototype.toLowerCase`) are inputs of the model (`Platform`), and so
  are the values of `crypto.randomUUID()` and `new Date().toISOString()`.
* The module-level array `payments` is passed explicitly: a handler takes the
  array before the request and returns the array after it.
-/

namespace McPay

/-! ## Strings and buffers -/

/-- White space and line terminator code points, the ones that
`String.prototype.trim` strips from both ends. -/
def isJsWhitespace (c : Char) : Bool :=
  let n := c.toNat
  (decide (9 ≤ n) && decide (n ≤ 13)) || n == 0x20 || n == 0xA0 || n == 0x1680
    || (decide (0x2000 ≤ n) && decide (n ≤ 0x200A)) || n == 0x2028 || n == 0x2029
    || n == 0x202F || n == 0x205F || n == 0x3000 || n == 0xFEFF

/-- Strip white space from both ends of a list of characters. -/
def trimChars (l : List Char) : List Char :=
  ((l.dropWhile isJsWhitespace).reverse.dropWhile isJsWhitespace).reverse

/-- The method `s.trim()`. -/
def jsTrim (s : String) : String := ⟨trimChars s.data⟩

/-- The property `s.length`: the number of UTF-16 code units of `s`. -/
def jsLength (s : String) : Nat :=
  (s.data.map (fun c => if c.toNat < 0x10000 then 1 else 2)).sum

/-- The UTF-8 encoding of one code point. -/
def utf8Bytes (c : Char) : List Nat :=
  let n := c.toNat
  if n < 0x80 then [n]
  else if n < 0x800 then [0xC0 + n / 64, 0x80 + n % 64]
  else if n < 0x10000 then [0xE0 + n / 4096, 0x80 + n / 64 % 64, 0x80 + n % 64]
  else [0xF0 + n / 262144, 0x80 + n / 4096 % 64, 0x80 + n / 64 % 64, 0x80 + n % 64]

/-- The UTF-8 encoding of a list of code points. -/
def utf8Encode : List Char → List Nat
  | [] => []
  | c :: cs => utf8Bytes c ++ utf8Encode cs

/-- The call `Buffer.from(s)`: the bytes of `s` in UTF-8, the default encoding. -/
def bufferFrom (s : String) : List Nat := utf8Encode s.data

/-- Exceptions that reach the outer `catch` of the handler. -/
inductive JsError
  | rangeError
  | typeError
  deriving DecidableEq, Repr

/-- The call `crypto.timingSafeEqual(a, b)`: throws a `RangeError` when the two
buffers differ in byte length, otherwise tells whether they hold the same bytes. -/
def timingSafeEqual (a b : List Nat) : Except JsError Bool :=
  if a.length ≠ b.length then .error .rangeError else .ok (decide (a = b))

/-! ## Numbers -/

/-- A JavaScript number: NaN, an infinity, or a finite binary64 value given by
its sign, its biased exponent (0 for zero and subnormals) and its 52-bit
fraction. `fin s 0 0` is the zero of sign `s`. -/
inductive JsNumber
  | nan
  | inf (neg : Bool)
  | fin (neg : Bool) (expo : Fin 2047) (frac : Fin 4503599627370496)
  deriving DecidableEq, Repr

namespace JsNumber

/-- Positive zero, the literal `0`. -/
def zero : JsNumber := fin false 0 0

/-- Negative zero. -/
def negZero : JsNumber := fin true 0 0

/-- The test `Number.isNaN(x)` on a number. -/
def isNaN : JsNumber → Bool
  | nan => true
  | _ => false

/-- The magnitude of a finite value, in units of 2^-1074. -/
def mag (expo : Fin 2047) (frac : Fin 4503599627370496) : Nat :=
  if expo.val = 0 then frac.val else (4503599627370496 + frac.val) * 2 ^ (expo.val - 1)

/-- Whether a number is one of the two zeros. -/
def isZero : JsNumber → Bool
  | fin _ e f => decide (mag e f = 0)
  | _ => false

/-- Floor of the binary logarithm, by halving; `fuel` bounds the number of halvings. -/
def bitLog (fuel n : Nat) : Nat :=
  match fuel with
  | 0 => 0
  | k + 1 => if n < 2 then 0 else bitLog k (n / 2) + 1

/-- The quotient of `m` by `2 ^ shift`, rounded to the nearest integer, ties to even. -/
def roundShift (m shift : Nat) : Nat :=
  let q := m / 2 ^ shift
  let r := m % 2 ^ shift
  if 2 ^ shift < 2 * r ∨ (2 * r = 2 ^ shift ∧ q % 2 = 1) then q + 1 else q

/-- Round a magnitude given in units of 2^-1074 to the nearest binary64 value,
ties to even, overflowing to infinity. -/
def ofMag (neg : Bool) (m : Nat) : JsNumber :=
  if h : m < 4503599627370496 then fin neg 0 ⟨m, h⟩
  else
    let shift := bitLog m m - 52
    let q1 := roundShift m shift
    let expo := shift + q1 / 4503599627370496
    if h2 : expo < 2047 then
      fin neg ⟨expo, h2⟩ ⟨q1 % 4503599627370496, Nat.mod_lt _ (by decide)⟩
    else inf neg

/-- The operator `x + y` on numbers. -/
def add : JsNumber → JsNumber → JsNumber
  | nan, _ => nan
  | _, nan => nan
  | inf a, inf b => if a = b then inf a else nan
  | inf a, fin _ _ _ => inf a
  | fin _ _ _, inf b => inf b
  | fin s1 e1 f1, fin s2 e2 f2 =>
    let x := mag e1 f1
    let y := mag e2 f2
    if x = 0 ∧ y = 0 then fin (s1 && s2) 0 0
    else if s1 = s2 then ofMag s1 (x + y)
    else if x = y then zero
    else if y < x then ofMag s1 (x - y)
    else ofMag s2 (y - x)

/-- The number denoted by an integer literal. -/
def ofInt (z : Int) : JsNumber := ofMag (decide (z < 0)) (z.natAbs * 2 ^ 1074)

end JsNumber

/-! ## Values -/

/-- A value produced by `JSON.parse`, also used for response bodies. -/
inductive JsVal
  | null
  | bool (b : Bool)
  | num (n : JsNumber)
  | str (s : String)
  | arr (items : List JsVal)
  | obj (fields : List (String × JsVal))

namespace JsVal

/-- The property read `v.k` (or `v?.k`) for the names the handler reads (`type`,
`payer`, `amount`, `ts`, `raw`): the field of an object, `none` (JavaScript
`undefined`) when the object has no such field or when `v` is not an object. -/
def prop (v : JsVal) (k : String) : Option JsVal :=
  match v with
  | obj fields => fields.lookup k
  | _ => none

/-- Truthiness, as tested by `!v` and `v || d`. -/
def truthy : JsVal → Bool
  | null => false
  | bool b => b
  | num n => !(n.isZero || n.isNaN)
  | str s => decide (s ≠ "")
  | arr _ => true
  | obj _ => true

end JsVal

/-- The text of `v` when `typeof v === 'string'`. -/
def asString : Option JsVal → Option String
  | some (.str s) => some s
  | _ => none

/-- The number `v` when `typeof v === 'number'`. -/
def asNumber : Option JsVal → Option JsNumber
  | some (.num n) => some n
  | _ => none

/-- The expression `v || ''`. -/
def orEmpty : Option JsVal → JsVal
  | some v => if v.truthy then v else .str ""
  | none => .str ""

/-! ## Ledger -/

/-- An element of the array `payments`. -/
structure Entry where
  id : String
  payer : String
  amount : JsNumber
  raw : JsVal
  ts : String
  receivedAt : String

/-- The call `payments.unshift(entry)`. -/
def unshift (entry : Entry) (payments : List Entry) : List Entry := entry :: payments

/-- The call `payments.splice(start)`: removes every element from index `start` on. -/
def splice (start : Nat) (payments : List Entry) : List Entry := payments.take start

/-- Lines 64-65: `payments.unshift(entry); payments.splice(200);`. -/
def insert (entry : Entry) (payments : List Entry) : List Entry :=
  splice 200 (unshift entry payments)

/-- Insert a sequence of entries one after another, first element first. -/
def insertAll (entries : List Entry) (payments : List Entry) : List Entry :=
  entries.foldl (fun acc e => insert e acc) payments

/-! ## Requests and responses -/

/-- Library functions the handlers call. -/
structure Platform where
  /-- The digest `crypto.createHmac('sha256', secret).update(body).digest('hex')`. -/
  hmacSha256Hex : String → List Nat → String
  /-- The call `JSON.parse(body.toString('utf8'))`, `none` when it throws. -/
  jsonParse : List Nat → Option JsVal
  /-- The method `s.toLowerCase()`. -/
  toLowerCase : String → String

/-- What `POST /mc-pay` reads from the request. -/
structure Request where
  /-- The value of `req.header('X-Signature')`, `none` when the header is absent. -/
  xSignature : Option String
  /-- The bytes of `req.body`. -/
  body : List Nat

/-- The status and the object passed to `res.json`. -/
structure Response where
  status : Nat
  body : JsVal

/-- The object `{ ok: false, error: msg }`. -/
def errorBody (msg : String) : JsVal := .obj [("ok", .bool false), ("error", .str msg)]

/-- The object `{ ok: true }`. -/
def okBody : JsVal := .obj [("ok", .bool true)]

/-- Library calls recorded while a request is handled. -/
inductive Call
  | createHmac
  | timingSafeEqual
  | jsonParse
  deriving DecidableEq, Repr

/-- The result of handling one request: the response, the array `payments`
afterwards and the library calls made, in order. -/
structure Outcome where
  res : Response
  payments : List Entry
  calls : List Call

/-- Lines 50-53: the four field checks in order; the error text of the first one
that fails, or the checked `payer`, `amount` and `ts`. -/
def validate (payload : JsVal) : Except String (String × JsNumber × String) :=
  if asString (payload.prop "type") ≠ some "pay_received" then
    .error "type must be pay_received"
  else
    match asString (payload.prop "payer") with
    | none => .error "payer must be string"
    | some payer =>
      if payer = "" then .error "payer must be string"
      else
        match asNumber (payload.prop "amount") with
        | none => .error "amount must be number"
        | some amount =>
          if amount.isNaN then .error "amount must be number"
          else
            match asString (payload.prop "ts") with
            | none => .error "ts must be string"
            | some ts =>
              if ts = "" then .error "ts must be string"
              else .ok (payer, amount, ts)

/-- Lines 42-67: decode the body, check the fields, build the entry and insert
it. `uuid` and `now` are the values `crypto.randomUUID()` and
`new Date().toISOString()` would return. -/
def ingest (P : Platform) (uuid now : String) (payments : List Entry)
    (rawBody : List Nat) : Outcome :=
  match P.jsonParse rawBody with
  | none =>
    ⟨⟨400, errorBody "Invalid JSON"⟩, payments, [.createHmac, .timingSafeEqual, .jsonParse]⟩
  | some payload =>
    match validate payload with
    | .error msg =>
      ⟨⟨400, errorBody msg⟩, payments, [.createHmac, .timingSafeEqual, .jsonParse]⟩
    | .ok (payer, amount, ts) =>
      let entry : Entry :=
        { id := uuid, payer := payer, amount := amount,
          raw := orEmpty (payload.prop "raw"), ts := ts, receivedAt := now }
      ⟨⟨200, okBody⟩, insert entry payments, [.createHmac, .timingSafeEqual, .jsonParse]⟩

/-- The handler of `POST /mc-pay` (lines 26-72) on a request whose `req.body` is a
`Buffer`: the signature check of lines 28-40, then `ingest`; an exception thrown
by `timingSafeEqual` reaches the outer `catch` of lines 68-71. -/
def mcPay (P : Platform) (SECRET : String) (uuid now : String)
    (payments : List Entry) (req : Request) : Outcome :=
  let sig := jsTrim (req.xSignature.getD "")
  let rawBody := req.body
  if sig = "" then
    ⟨⟨401, errorBody "Missing X-Signature"⟩, payments, []⟩
  else
    let expected := P.hmacSha256Hex SECRET rawBody
    if jsLength sig ≠ jsLength expected then
      ⟨⟨401, errorBody "Bad signature"⟩, payments, [.createHmac]⟩
    else
      match timingSafeEqual (bufferFrom sig) (bufferFrom expected) with
      | .error _ =>
        ⟨⟨500, errorBody "Server error"⟩, payments, [.createHmac, .timingSafeEqual]⟩
      | .ok false =>
        ⟨⟨401, errorBody "Bad signature"⟩, payments, [.createHmac, .timingSafeEqual]⟩
      | .ok true => ingest P uuid now payments rawBody

/-- The value of `req.body` when the handler runs. The middleware of line 15,
`express.raw({ type: 'application/json' })`, builds a `Buffer` only for a request
of content type `application/json` that has a body; for any other request
`req.body` is not a `Buffer` (it is the empty object `{}`). -/
inductive RawBody
  | buffer (bytes : List Nat)
  | notBuffer

/-- What `POST /mc-pay` reads from a request of any content type. -/
structure HttpRequest where
  /-- The value of `req.header('X-Signature')`, `none` when the header is absent. -/
  xSignature : Option String
  /-- The value of `req.body`. -/
  body : RawBody

/-- The argument check of `crypto.createHmac('sha256', SECRET).update(rawBody)`
(line 33): the bytes to digest, or the `TypeError` thrown when `rawBody` is not a
`Buffer`. -/
def hmacUpdate : RawBody → Except JsError (List Nat)
  | .buffer bytes => .ok bytes
  | .notBuffer => .error .typeError

/-- The handler of `POST /mc-pay` (lines 26-72) on any request: the test of line
31 comes first; then `update` either throws, which the outer `catch` of lines
68-71 answers with 500, or takes the bytes of the `Buffer` and the handler goes
on as `mcPay` does. -/
def postMcPay (P : Platform) (SECRET : String) (uuid now : String)
    (payments : List Entry) (r : HttpRequest) : Outcome :=
  let sig := jsTrim (r.xSignature.getD "")
  if sig = "" then
    ⟨⟨401, errorBody "Missing X-Signature"⟩, payments, []⟩
  else
    match hmacUpdate r.body with
    | .error _ => ⟨⟨500, errorBody "Server error"⟩, payments, [.createHmac]⟩
    | .ok bytes => mcPay P SECRET uuid now payments ⟨r.xSignature, bytes⟩

/-- The value of `req.query.user`: absent, a string, or an array or object (a
repeated or bracketed parameter), which is truthy and which `String(...)`
renders as `rendered`. An object on which `String(...)` itself throws is not a
value of this type: the handler then throws at line 76, before it reads
`payments`. -/
inductive QueryValue
  | undefined
  | str (s : String)
  | other (rendered : String)

/-- The expression `String(q || '')`. -/
def queryToString : QueryValue → String
  | .undefined => ""
  | .str s => s
  | .other rendered => rendered

/-- The expression `Number(p.amount || 0)` on an entry's amount. -/
def amountOrZero (amount : JsNumber) : JsNumber :=
  if amount.isZero || amount.isNaN then JsNumber.zero else amount

/-- Lines 79-81: the entries whose payer matches `user` without regard to case,
their amounts added up from `0`, first index first. -/
def balanceOf (P : Platform) (payments : List Entry) (user : String) : JsNumber :=
  (payments.filter (fun p => decide (P.toLowerCase p.payer = P.toLowerCase user))).foldl
    (fun sum p => JsNumber.add sum (amountOrZero p.amount)) JsNumber.zero

/-- The handler of `GET /balance` (lines 75-84). -/
def getBalance (P : Platform) (payments : List Entry) (q : QueryValue) : Outcome :=
  let user := jsTrim (queryToString q)
  if user = "" then
    ⟨⟨400, errorBody "Missing user"⟩, payments, []⟩
  else
    let balance := balanceOf P payments user
    ⟨⟨200, .obj [("ok", .bool true), ("user", .str user), ("balance", .num balance)]⟩,
      payments, []⟩

/-- The ledgers the server can hold: the empty array at start-up, then whatever
a `POST /mc-pay` or a `GET /balance` leaves behind. -/
inductive Reachable (P : Platform) (SECRET : String) : List Entry → Prop
  | start : Reachable P SECRET []
  | post {payments : List Entry} (uuid now : String) (req : Request) :
      Reachable P SECRET payments →
      Reachable P SECRET (mcPay P SECRET uuid now payments req).payments
  | balance {payments : List Entry} (q : QueryValue) :
      Reachable P SECRET payments →
      Reachable P SECRET (getBalance P payments q).payments

/-- A lowercase hexadecimal digit. -/
def isHexDigit (c : Char) : Bool :=
  (decide (48 ≤ c.toNat) && decide (c.toNat ≤ 57)) || (decide (97 ≤ c.toNat) && decide (c.toNat ≤ 102))

/-- The shape of a SHA-256 digest in hex: 64 lowercase hexadecimal digits. -/
def IsHexDigest (t : String) : Prop :=
  t.data.length = 64 ∧ ∀ c ∈ t.data, isHexDigit c = true

/-- The header value handed to the comparison: `(req.header('X-Signature') || '').trim()`. -/
def trimmedSignature (req : Request) : String := jsTrim (req.xSignature.getD "")

/-- Whether the request passes the checks of lines 31-40: the trimmed header is
not empty, has the length of the expected digest and `timingSafeEqual` returns true. -/
def Authenticated (P : Platform) (SECRET : String) (req : Request) : Prop :=
  trimmedSignature req ≠ "" ∧
    jsLength (trimmedSignature req) = jsLength (P.hmacSha256Hex SECRET req.body) ∧
    timingSafeEqual (bufferFrom (trimmedSignature req))
      (bufferFrom (P.hmacSha256Hex SECRET req.body)) = .ok true

/-! ## Concrete requests

The values below serve to run the handlers on concrete requests. The digests in
`samplePlatform` are the HMAC-SHA256 digests of the two sample bodies under the
default secret of line 17, and the decoded payloads are what `JSON.parse` returns
for them; on every other input `samplePlatform` returns a placeholder. -/

/-- The fallback secret of line 17. -/
def defaultSecret : String := "dev-secret-change-me"

/-- The number `10`. -/
def ten : JsNumber := .fin false 1026 1125899906842624

/-- The body of the end-to-end example of the specification. -/
def bobBody : List Nat :=
  bufferFrom
    "\x7b\"type\":\"pay_received\",\"payer\":\"Bob\",\"amount\":10,\"ts\":\"2024-01-01T00:00:00Z\"\x7d"

/-- What `JSON.parse` returns for `bobBody`. -/
def bobPayload : JsVal :=
  .obj [("type", .str "pay_received"), ("payer", .str "Bob"), ("amount", .num ten),
    ("ts", .str "2024-01-01T00:00:00Z")]

/-- The same body with the extra field `"raw":0`. -/
def rawZeroBody : List Nat :=
  bufferFrom
    "\x7b\"type\":\"pay_received\",\"payer\":\"Bob\",\"amount\":10,\"ts\":\"2024-01-01T00:00:00Z\",\"raw\":0\x7d"

/-- What `JSON.parse` returns for `rawZeroBody`. -/
def rawZeroPayload : JsVal :=
  .obj [("type", .str "pay_received"), ("payer", .str "Bob"), ("amount", .num ten),
    ("ts", .str "2024-01-01T00:00:00Z"), ("raw", .num JsNumber.zero)]

/-- The digest of `bobBody` under `defaultSecret`. -/
def bobDigest : String := "aa1d9e1fa0c5b53ebd90ce867e3a481ed101e210f9248c97fd80429ce6f43164"

/-- The digest of `rawZeroBody` under `defaultSecret`. -/
def rawZeroDigest : String := "84aa14b1dfcaef6279d1dad83252653092ebca8b1cc9dba46a3b693fc237ccc9"

/-- Library functions tabulated on the sample bodies; lower-casing is that of
ASCII letters. -/
def samplePlatform : Platform where
  hmacSha256Hex := fun secret body =>
    if secret = defaultSecret ∧ body = bobBody then bobDigest
    else if secret = defaultSecret ∧ body = rawZeroBody then rawZeroDigest
    else "0000000000000000000000000000000000000000000000000000000000000000"
  jsonParse := fun body =>
    if body = bobBody then some bobPayload
    else if body = rawZeroBody then some rawZeroPayload
    else none
  toLowerCase := fun s => ⟨s.data.map Char.toLower⟩

/-- A header value of 64 characters `é` (U+00E9), one byte each on the wire and
two bytes each in UTF-8. -/
def eAcuteSignature : String := ⟨List.replicate 64 (Char.ofNat 233)⟩

/-- The request of the end-to-end example, signed under `defaultSecret`. -/
def bobRequest : Request := ⟨some bobDigest, bobBody⟩

/-- The request carrying `rawZeroBody`, signed under `defaultSecret`. -/
def rawZeroRequest : Request := ⟨some rawZeroDigest, rawZeroBody⟩

/-- Entry number `i` of a run of insertions. -/
def sampleEntry (i : Nat) : Entry :=
  { id := toString i, payer := "Bob", amount := ten, raw := .str "",
    ts := "2024-01-01T00:00:00Z", receivedAt := "2024-01-01T00:00:01.000Z" }

/-- The entries numbered `0` to `n - 1`, in the order they are inserted. -/
def sampleEntries (n : Nat) : List Entry := (List.range n).map sampleEntry

/-- The sum, starting from `0`, of the amounts of the given entries, first entry first. -/
def sumOfAmounts (entries : List Entry) : JsNumber :=
  entries.foldl (fun sum p => JsNumber.add sum p.amount) JsNumber.zero

/-- The retained entries whose payer, lower-cased, equals `user` lower-cased. -/
def entriesOf (P : Platform) (payments : List Entry) (user : String) : List Entry :=
  payments.filter (fun p => decide (P.toLowerCase p.payer = P.toLowerCase user))

/-- Library functions tabulated on a single body: its digest under
`defaultSecret` and its decoded payload; a placeholder on every other input;
lower-casing is that of ASCII letters. -/
def tablePlatform (body : List Nat) (digest : String) (payload : JsVal) : Platform where
  hmacSha256Hex := fun secret b =>
    if secret = defaultSecret ∧ b = body then digest
    else "0000000000000000000000000000000000000000000000000000000000000000"
  jsonParse := fun b => if b = body then some payload else none
  toLowerCase := fun s => ⟨s.data.map Char.toLower⟩

/-- The number `1`. -/
def one : JsNumber := .fin false 1023 0

/-- The number `3`. -/
def three : JsNumber := .fin false 1024 2251799813685248

/-- The number `5`. -/
def five : JsNumber := .fin false 1025 1125899906842624

/-- The number `8`. -/
def eight : JsNumber := .fin false 1026 0

/-- The first check of line 50: `payload?.type === 'pay_received'`. -/
def typeOk (payload : JsVal) : Bool :=
  decide (asString (payload.prop "type") = some "pay_received")

/-- The check of line 51: `payload.payer` is a non-empty string. -/
def payerOk (payload : JsVal) : Bool :=
  match asString (payload.prop "payer") with
  | some s => decide (s ≠ "")
  | none => false

/-- The check of line 52: `payload.amount` is a number other than NaN. -/
def amountOk (payload : JsVal) : Bool :=
  match asNumber (payload.prop "amount") with
  | some n => !n.isNaN
  | none => false

/-- The check of line 53: `payload.ts` is a non-empty string. -/
def tsOk (payload : JsVal) : Bool :=
  match asString (payload.prop "ts") with
  | some s => decide (s ≠ "")
  | none => false

/-- The body `{"type":"x"}`. -/
def typeXBody : List Nat := bufferFrom "\x7b\"type\":\"x\"\x7d"

/-- What `JSON.parse` returns for `typeXBody`. -/
def typeXPayload : JsVal := .obj [("type", .str "x")]

/-- The digest of `typeXBody` under `defaultSecret`. -/
def typeXDigest : String := "14a70b7019b0784d16b83e39cebd0b5175110c62ecd281b233b2a01f183c8974"

/-- The entry stored for `{payer:"Steve",amount:5}`. -/
def steveFive : Entry :=
  { id := "id-1", payer := "Steve", amount := five, raw := .str "",
    ts := "2024-01-01T00:00:00Z", receivedAt := "2024-01-01T00:00:01.000Z" }

/-- The entry stored for `{payer:"steve",amount:3}`. -/
def steveThree : Entry :=
  { id := "id-2", payer := "steve", amount := three, raw := .str "",
    ts := "2024-01-01T00:00:02Z", receivedAt := "2024-01-01T00:00:03.000Z" }

/-- The test `Number.isFinite(x)` on a number. -/
def JsNumber.isFinite : JsNumber → Bool
  | .fin _ _ _ => true
  | _ => false

/-- Whether a value is text (`typeof v === 'string'`). -/
def JsVal.isText : JsVal → Bool
  | .str _ => true
  | _ => false

/-- The body of the end-to-end example with the amount written `1e999`. -/
def infiniteBody : List Nat :=
  bufferFrom
    "\x7b\"type\":\"pay_received\",\"payer\":\"Bob\",\"amount\":1e999,\"ts\":\"2024-01-01T00:00:00Z\"\x7d"

/-- What `JSON.parse` returns for `infiniteBody`: `1e999` decodes to `Infinity`. -/
def infinitePayload : JsVal :=
  .obj [("type", .str "pay_received"), ("payer", .str "Bob"), ("amount", .num (.inf false)),
    ("ts", .str "2024-01-01T00:00:00Z")]

/-- The digest of `infiniteBody` under `defaultSecret`. -/
def infiniteDigest : String := "344f6e8a10f1b9ff119584fd9fd8ab60aa2e22aec4d31ae8a2a352b4980e1f09"

/-- The body of the end-to-end example with the extra field `"raw":5`. -/
def rawFiveBody : List Nat :=
  bufferFrom
    "\x7b\"type\":\"pay_received\",\"payer\":\"Bob\",\"amount\":10,\"ts\":\"2024-01-01T00:00:00Z\",\"raw\":5\x7d"

/-- What `JSON.parse` returns for `rawFiveBody`. -/
def rawFivePayload : JsVal :=
  .obj [("type", .str "pay_received"), ("payer", .str "Bob"), ("amount", .num ten),
    ("ts", .str "2024-01-01T00:00:00Z"), ("raw", .num five)]

/-- The digest of `rawFiveBody` under `defaultSecret`. -/
def rawFiveDigest : String := "bbcdc223d68dd380941fbb842048f47b169073788bb03a08da5cb272e83a3f1e"

/-- The number `2`. -/
def two : JsNumber := .fin false 1024 0

/-- The number `2^53 = 9007199254740992`. -/
def twoPow53 : JsNumber := .fin false 1076 0

/-- The number `2^53 + 2 = 9007199254740994`. -/
def twoPow53PlusTwo : JsNumber := .fin false 1076 1

/-- The entry stored for payment number `i` of amount `1` by `Bob`. -/
def oneBob (i : Nat) : Entry :=
  { id := toString i, payer := "Bob", amount := one, raw := .str "",
    ts := "2024-01-01T00:00:00Z", receivedAt := "2024-01-01T00:00:01.000Z" }

/-- The body of the end-to-end example with the amount `9007199254740992`. -/
def bigBody : List Nat :=
  bufferFrom
    "\x7b\"type\":\"pay_received\",\"payer\":\"Bob\",\"amount\":9007199254740992,\"ts\":\"2024-01-01T00:00:00Z\"\x7d"

/-- What `JSON.parse` returns for `bigBody`. -/
def bigPayload : JsVal :=
  .obj [("type", .str "pay_received"), ("payer", .str "Bob"), ("amount", .num twoPow53),
    ("ts", .str "2024-01-01T00:00:00Z")]

/-- The digest of `bigBody` under `defaultSecret`. -/
def bigDigest : String := "d5f7358d6262b3bd3c5fc7d2a515c0d89f778d074350b35b0b4828078650513a"

/-- The platform tabulated on `bigBody`. -/
def bigPlatform : Platform := tablePlatform bigBody bigDigest bigPayload

/-- The request carrying `bigBody`, signed under `defaultSecret`. -/
def bigRequest : Request := ⟨some bigDigest, bigBody⟩

/-- The ledger left by two payments of amount `1` by `Bob`. -/
def twoOnes : List Entry := [oneBob 1, oneBob 0]

/-- The number `200`. -/
def twoHundred : JsNumber := .fin false 1030 2533274790395904

/-- The number `201`. -/
def twoHundredOne : JsNumber := .fin false 1030 2568459162484736

/-- The opposite `-x` of a number. -/
def JsNumber.neg : JsNumber → JsNumber
  | .nan => .nan
  | .inf s => .inf (!s)
  | .fin s e f => .fin (!s) e f

/-- The entries stored for the payments numbered `0` to `n - 1` of amount `1` by
`Bob`, in the order they are accepted. -/
def onePayments (n : Nat) : List Entry := (List.range n).map oneBob

/-- The entry stored for payment number `i` of amount `1` by `Alice`. -/
def aliceEntry (i : Nat) : Entry :=
  { id := toString i, payer := "Alice", amount := one, raw := .str "",
    ts := "2024-01-01T00:00:00Z", receivedAt := "2024-01-01T00:00:01.000Z" }

/-- The entry stored for a payment of amount `9007199254740992` by `Bob`. -/
def bigBob : Entry :=
  { id := "id-big", payer := "Bob", amount := twoPow53, raw := .str "",
    ts := "2024-01-01T00:00:00Z", receivedAt := "2024-01-01T00:00:01.000Z" }

/-- A full ledger: 199 entries of `Alice`, then, oldest, one entry of `Bob` of amount `1`. -/
def fullLedgerA : List Entry := (List.range 199).map aliceEntry ++ [oneBob 0]

/-- A full ledger: newest an entry of `Bob` of amount `1`, then 198 entries of
`Alice`, then, oldest, the entry of `Bob` of amount `9007199254740992`. -/
def fullLedgerB : List Entry := oneBob 1 :: ((List.range 198).map aliceEntry ++ [bigBob])

/-- Whether the first character of a text is white space. -/
def startsWithWhitespace (s : String) : Bool :=
  match s.data with
  | c :: _ => isJsWhitespace c
  | [] => false

/-- Whether the last character of a text is white space. -/
def endsWithWhitespace (s : String) : Bool :=
  match s.data.reverse with
  | c :: _ => isJsWhitespace c
  | [] => false

/-- Whether a text has leading or trailing white space. -/
def hasSurroundingWhitespace (s : String) : Bool :=
  startsWithWhitespace s || endsWithWhitespace s

/-- The body of the end-to-end example with the payer written ` Bob`. -/
def spaceBody : List Nat :=
  bufferFrom
    "\x7b\"type\":\"pay_received\",\"payer\":\" Bob\",\"amount\":10,\"ts\":\"2024-01-01T00:00:00Z\"\x7d"

/-- What `JSON.parse` returns for `spaceBody`. -/
def spacePayload : JsVal :=
  .obj [("type", .str "pay_received"), ("payer", .str " Bob"), ("amount", .num ten),
    ("ts", .str "2024-01-01T00:00:00Z")]

/-- The digest of `spaceBody` under `defaultSecret`. -/
def spaceDigest : String := "238c98c215096604394ed9cbd7907bd1f765f089d5b5b034887fdbeb4c8f492e"

/-- The entry stored for the end-to-end example request. -/
def bobEntry : Entry :=
  { id := "id-1", payer := "Bob", amount := ten, raw := .str "",
    ts := "2024-01-01T00:00:00Z", receivedAt := "2024-01-01T00:00:01.000Z" }

/-! ## Lemmas on strings -/

theorem isHexDigit_ascii {c : Char} (h : isHexDigit c = true) : c.toNat < 128 := by
  simp only [isHexDigit, Bool.or_eq_true, Bool.and_eq_true, decide_eq_true_eq] at h
  omega

theorem isHexDigit_not_whitespace {c : Char} (h : isHexDigit c = true) :
    isJsWhitespace c = false := by
  simp only [isHexDigit, Bool.or_eq_true, Bool.and_eq_true, decide_eq_true_eq] at h
  simp only [isJsWhitespace, Bool.or_eq_false_iff, Bool.and_eq_false_iff, decide_eq_false_iff_not,
    beq_eq_false_iff_ne, ne_eq]
  omega

theorem char_eq_of_toNat_eq {a b : Char} (h : a.toNat = b.toNat) : a = b := by
  rw [← Char.ofNat_toNat a, ← Char.ofNat_toNat b, h]

theorem utf8Bytes_ascii {c : Char} (h : c.toNat < 128) : utf8Bytes c = [c.toNat] := by
  simp [utf8Bytes, h]

theorem utf8Bytes_head (c : Char) (h : ¬ c.toNat < 128) :
    ∃ b bs, utf8Bytes c = b :: bs ∧ 128 ≤ b := by
  unfold utf8Bytes
  simp only [h, if_false]
  split
  · exact ⟨_, _, rfl, by omega⟩
  · split
    · exact ⟨_, _, rfl, by omega⟩
    · exact ⟨_, _, rfl, by omega⟩

theorem utf8Encode_ascii (l : List Char) (h : ∀ c ∈ l, c.toNat < 128) :
    utf8Encode l = l.map Char.toNat := by
  induction l with
  | nil => rfl
  | cons c cs ih =>
    have hc : c.toNat < 128 := h c (List.mem_cons_self _ _)
    have hcs : ∀ d ∈ cs, d.toNat < 128 := fun d hd => h d (List.mem_cons_of_mem _ hd)
    simp [utf8Encode, utf8Bytes_ascii hc, ih hcs]

/-- Only the ASCII text itself encodes to the bytes of an ASCII text. -/
theorem utf8Encode_eq_ascii (e : List Char) (he : ∀ c ∈ e, c.toNat < 128) :
    ∀ s : List Char, utf8Encode s = utf8Encode e → s = e := by
  induction e with
  | nil =>
    intro s hs
    cases s with
    | nil => rfl
    | cons c cs =>
      exfalso
      by_cases hc : c.toNat < 128
      · simp [utf8Encode, utf8Bytes_ascii hc] at hs
      · obtain ⟨b, bs, hb, _⟩ := utf8Bytes_head c hc
        simp [utf8Encode, hb] at hs
  | cons a es ih =>
    intro s hs
    have ha : a.toNat < 128 := he a (List.mem_cons_self _ _)
    have hes : ∀ d ∈ es, d.toNat < 128 := fun d hd => he d (List.mem_cons_of_mem _ hd)
    cases s with
    | nil => simp [utf8Encode, utf8Bytes_ascii ha] at hs
    | cons c cs =>
      by_cases hc : c.toNat < 128
      · simp only [utf8Encode, utf8Bytes_ascii hc, utf8Bytes_ascii ha, List.singleton_append,
          List.cons.injEq] at hs
        rw [char_eq_of_toNat_eq hs.1, ih hes cs hs.2]
      · exfalso
        obtain ⟨b, bs, hb, hge⟩ := utf8Bytes_head c hc
        simp only [utf8Encode, hb, utf8Bytes_ascii ha, List.singleton_append, List.cons_append,
          List.cons.injEq] at hs
        omega

theorem jsLength_ascii (l : List Char) (h : ∀ c ∈ l, c.toNat < 128) :
    (l.map (fun c => if c.toNat < 0x10000 then 1 else 2)).sum = l.length := by
  induction l with
  | nil => rfl
  | cons c cs ih =>
    have hc : c.toNat < 128 := h c (List.mem_cons_self _ _)
    have hcs : ∀ d ∈ cs, d.toNat < 128 := fun d hd => h d (List.mem_cons_of_mem _ hd)
    have : c.toNat < 0x10000 := by omega
    simp [this, ih hcs]
    omega

theorem dropWhile_eq_self_of_head {α : Type} (p : α → Bool) (a : α) (l : List α)
    (h : p a = false) : (a :: l).dropWhile p = a :: l := by
  simp [List.dropWhile, h]

/-- Trimming leaves a text alone when neither end is white space. -/
theorem trimChars_eq_self (l : List Char) (h : ∀ c ∈ l, isJsWhitespace c = false) :
    trimChars l = l := by
  unfold trimChars
  have h1 : l.dropWhile isJsWhitespace = l := by
    cases l with
    | nil => rfl
    | cons a t => exact dropWhile_eq_self_of_head _ _ _ (h a (List.mem_cons_self _ _))
  rw [h1]
  have h2 : l.reverse.dropWhile isJsWhitespace = l.reverse := by
    cases hr : l.reverse with
    | nil => rfl
    | cons a t =>
      apply dropWhile_eq_self_of_head
      apply h
      have : a ∈ l.reverse := by rw [hr]; exact List.mem_cons_self _ _
      exact List.mem_reverse.mp this
  rw [h2, List.reverse_reverse]

theorem IsHexDigest.ascii {t : String} (h : IsHexDigest t) : ∀ c ∈ t.data, c.toNat < 128 :=
  fun c hc => isHexDigit_ascii (h.2 c hc)

theorem IsHexDigest.jsLength {t : String} (h : IsHexDigest t) : jsLength t = 64 := by
  unfold McPay.jsLength
  rw [jsLength_ascii _ h.ascii, h.1]

theorem IsHexDigest.ne_empty {t : String} (h : IsHexDigest t) : t ≠ "" := by
  intro he
  have := h.1
  rw [he] at this
  simp at this

theorem IsHexDigest.trim {t : String} (h : IsHexDigest t) : jsTrim t = t := by
  apply String.ext
  show trimChars t.data = t.data
  exact trimChars_eq_self _ (fun c hc => isHexDigit_not_whitespace (h.2 c hc))

/-- When the trimmed header is the expected digest, the handler goes on to `ingest`. -/
theorem mcPay_of_signature_eq (P : Platform) (SECRET uuid now : String) (payments : List Entry)
    (req : Request) (hH : IsHexDigest (P.hmacSha256Hex SECRET req.body))
    (hsig : trimmedSignature req = P.hmacSha256Hex SECRET req.body) :
    mcPay P SECRET uuid now payments req = ingest P uuid now payments req.body := by
  unfold trimmedSignature at hsig
  unfold mcPay
  simp only [hsig, hH.ne_empty, if_false, ne_eq, not_true_eq_false, timingSafeEqual,
    decide_True]

/-- When the trimmed header is not the expected digest, the handler answers
without calling `JSON.parse` and leaves `payments` alone. -/
theorem mcPay_of_signature_ne (P : Platform) (SECRET uuid now : String) (payments : List Entry)
    (req : Request) (hH : IsHexDigest (P.hmacSha256Hex SECRET req.body))
    (hsig : trimmedSignature req ≠ P.hmacSha256Hex SECRET req.body) :
    (mcPay P SECRET uuid now payments req).payments = payments ∧
      Call.jsonParse ∉ (mcPay P SECRET uuid now payments req).calls ∧
      (mcPay P SECRET uuid now payments req).res.status ≠ 200 := by
  unfold trimmedSignature at hsig
  unfold mcPay
  simp only
  split
  · simp
  · split
    · simp
    · split
      · simp
      · simp
      · rename_i heq
        exfalso
        apply hsig
        unfold timingSafeEqual at heq
        split at heq
        · cases heq
        · simp only [Except.ok.injEq, decide_eq_true_eq] at heq
          apply String.ext
          exact utf8Encode_eq_ascii _ hH.ascii _ heq

theorem ingest_calls (P : Platform) (uuid now : String) (payments : List Entry)
    (rawBody : List Nat) :
    (ingest P uuid now payments rawBody).calls =
      [Call.createHmac, Call.timingSafeEqual, Call.jsonParse] := by
  unfold ingest
  split
  · rfl
  · split <;> rfl

/-! ## Signature check -/

/-- Claim C1. With the digest function returning 64 lowercase hex digits, the
`POST /mc-pay` handler reaches `JSON.parse` exactly when the `X-Signature`
header is present and, once trimmed, equals the digest of the secret and the
body; a header holding the digest itself is accepted. -/
theorem C1_signature_accepted_iff (P : Platform) (SECRET uuid now : String)
    (payments : List Entry) (req : Request)
    (hH : ∀ secret body, IsHexDigest (P.hmacSha256Hex secret body)) :
    (Call.jsonParse ∈ (mcPay P SECRET uuid now payments req).calls ↔
      ∃ h, req.xSignature = some h ∧ jsTrim h = P.hmacSha256Hex SECRET req.body) ∧
    (req.xSignature = some (P.hmacSha256Hex SECRET req.body) →
      Call.jsonParse ∈ (mcPay P SECRET uuid now payments req).calls) := by
  have hd := hH SECRET req.body
  have key : ∀ r : Request, r.body = req.body →
      trimmedSignature r = P.hmacSha256Hex SECRET r.body →
      Call.jsonParse ∈ (mcPay P SECRET uuid now payments r).calls := by
    intro r hb hs
    rw [mcPay_of_signature_eq P SECRET uuid now payments r (hb ▸ hd) hs, ingest_calls]
    simp
  refine ⟨⟨fun hin => ?_, fun ⟨h, hh, ht⟩ => ?_⟩, fun hh => ?_⟩
  · by_cases hs : trimmedSignature req = P.hmacSha256Hex SECRET req.body
    · cases hx : req.xSignature with
      | none =>
        exfalso
        have h0 : trimmedSignature req = "" := by simp [trimmedSignature, hx]; rfl
        exact hd.ne_empty (hs ▸ h0)
      | some h =>
        refine ⟨h, rfl, ?_⟩
        simpa [trimmedSignature, hx] using hs
    · exact absurd hin (mcPay_of_signature_ne P SECRET uuid now payments req hd hs).2.1
  · exact key req rfl (by simpa [trimmedSignature, hh] using ht)
  · exact key req rfl (by simpa [trimmedSignature, hh] using hd.trim)

theorem samplePlatform_hex (secret : String) (body : List Nat) :
    IsHexDigest (samplePlatform.hmacSha256Hex secret body) := by
  unfold samplePlatform
  simp only
  split
  · exact ⟨by decide, by decide⟩
  · split
    · exact ⟨by decide, by decide⟩
    · exact ⟨by decide, by decide⟩

/-- The end-to-end example request, signed, reaches `JSON.parse`. -/
theorem C1_signature_accepted_iff_witness :
    Call.jsonParse ∈ (mcPay samplePlatform defaultSecret "id-1" "2024-01-01T00:00:01.000Z" []
      ⟨some (samplePlatform.hmacSha256Hex defaultSecret bobBody), bobBody⟩).calls :=
  (C1_signature_accepted_iff samplePlatform defaultSecret "id-1" "2024-01-01T00:00:01.000Z" []
    ⟨some (samplePlatform.hmacSha256Hex defaultSecret bobBody), bobBody⟩ samplePlatform_hex).2 rfl

set_option maxRecDepth 100000 in
theorem eAcuteSignature_facts :
    jsTrim eAcuteSignature = eAcuteSignature ∧ eAcuteSignature ≠ "" ∧
      jsLength eAcuteSignature = 64 ∧ (bufferFrom eAcuteSignature).length = 128 := by
  refine ⟨?_, ?_, ?_, ?_⟩
  · apply String.ext
    show trimChars eAcuteSignature.data = eAcuteSignature.data
    apply trimChars_eq_self
    intro c hc
    have : c = Char.ofNat 233 := List.eq_of_mem_replicate hc
    subst this
    decide
  · intro h
    have := congrArg (fun t => t.data.length) h
    simp [eAcuteSignature] at this
  · decide
  · decide

/-- When the trimmed header has the length of the digest in UTF-16 code units but
not in UTF-8 bytes, `timingSafeEqual` throws and the outer `catch` answers 500. -/
theorem mcPay_of_byte_length_ne (P : Platform) (SECRET uuid now : String) (payments : List Entry)
    (req : Request) (hne : trimmedSignature req ≠ "")
    (hl : jsLength (trimmedSignature req) = jsLength (P.hmacSha256Hex SECRET req.body))
    (hb : (bufferFrom (trimmedSignature req)).length ≠
      (bufferFrom (P.hmacSha256Hex SECRET req.body)).length) :
    mcPay P SECRET uuid now payments req =
      ⟨⟨500, errorBody "Server error"⟩, payments, [.createHmac, .timingSafeEqual]⟩ := by
  unfold trimmedSignature at hne hl hb
  unfold mcPay
  simp only [hne, if_false, hl, ne_eq, not_true_eq_false, timingSafeEqual, hb, not_false_eq_true,
    if_true]

/-- When the trimmed header has the byte length of the digest and other bytes, the
handler answers 401 `Bad signature` and leaves `payments` alone. -/
theorem mcPay_of_content_mismatch (P : Platform) (SECRET uuid now : String)
    (payments : List Entry) (req : Request) (hne : trimmedSignature req ≠ "")
    (hl : jsLength (trimmedSignature req) = jsLength (P.hmacSha256Hex SECRET req.body))
    (hb : (bufferFrom (trimmedSignature req)).length =
      (bufferFrom (P.hmacSha256Hex SECRET req.body)).length)
    (hc : bufferFrom (trimmedSignature req) ≠ bufferFrom (P.hmacSha256Hex SECRET req.body)) :
    mcPay P SECRET uuid now payments req =
      ⟨⟨401, errorBody "Bad signature"⟩, payments, [.createHmac, .timingSafeEqual]⟩ := by
  unfold trimmedSignature at hne hl hb hc
  unfold mcPay
  simp only [hne, if_false, hl, ne_eq, not_true_eq_false, timingSafeEqual, hb, hc,
    decide_False]

/-- Claim C2, at the failing input. Whatever the body and the digest function
(returning 64 lowercase hex digits), a request whose `X-Signature` is 64 times the
character `é` has the length of the digest and differs from it, and the handler
answers 500 `Server error`: `timingSafeEqual` throws on buffers of 128 and 64 bytes. -/
theorem C2_non_ascii_signature_server_error (P : Platform) (SECRET uuid now : String)
    (payments : List Entry) (body : List Nat)
    (hH : ∀ secret b, IsHexDigest (P.hmacSha256Hex secret b)) :
    jsLength (trimmedSignature ⟨some eAcuteSignature, body⟩) =
        jsLength (P.hmacSha256Hex SECRET body) ∧
      trimmedSignature ⟨some eAcuteSignature, body⟩ ≠ P.hmacSha256Hex SECRET body ∧
      (mcPay P SECRET uuid now payments ⟨some eAcuteSignature, body⟩).res =
        ⟨500, errorBody "Server error"⟩ := by
  have hd := hH SECRET body
  obtain ⟨ht, hne, hl, hb⟩ := eAcuteSignature_facts
  have hts : trimmedSignature ⟨some eAcuteSignature, body⟩ = eAcuteSignature := by
    simp [trimmedSignature, ht]
  have hbl : (bufferFrom (P.hmacSha256Hex SECRET body)).length = 64 := by
    unfold bufferFrom
    rw [utf8Encode_ascii _ hd.ascii, List.length_map, hd.1]
  refine ⟨by rw [hts, hl, hd.jsLength], ?_, ?_⟩
  · rw [hts]
    intro h
    have := congrArg (fun t => (bufferFrom t).length) h
    simp only [hb, hbl] at this
    omega
  · rw [mcPay_of_byte_length_ne P SECRET uuid now payments ⟨some eAcuteSignature, body⟩
      (hts ▸ hne) (by rw [hts, hl, hd.jsLength]) (by rw [hts, hb, hbl]; decide)]

/-- The failing request of C2 on the sample platform and the end-to-end body. -/
theorem C2_non_ascii_signature_server_error_witness :
    (mcPay samplePlatform defaultSecret "id-1" "2024-01-01T00:00:01.000Z" []
      ⟨some eAcuteSignature, bobBody⟩).res = ⟨500, errorBody "Server error"⟩ :=
  (C2_non_ascii_signature_server_error samplePlatform defaultSecret "id-1"
    "2024-01-01T00:00:01.000Z" [] bobBody samplePlatform_hex).2.2

/-- On a `Buffer` body, a request whose trimmed `X-Signature` is not empty and
differs in length from the expected digest is answered 401 `Bad signature`;
`timingSafeEqual` is not called and `payments` is left as it was, whatever the
bytes of the body. -/
theorem mcPay_length_mismatch (P : Platform) (SECRET uuid now : String)
    (payments : List Entry) (req : Request) (hne : trimmedSignature req ≠ "")
    (hlen : jsLength (trimmedSignature req) ≠ jsLength (P.hmacSha256Hex SECRET req.body)) :
    (mcPay P SECRET uuid now payments req).res = ⟨401, errorBody "Bad signature"⟩ ∧
      Call.timingSafeEqual ∉ (mcPay P SECRET uuid now payments req).calls ∧
      (mcPay P SECRET uuid now payments req).payments = payments := by
  unfold trimmedSignature at hne hlen
  unfold mcPay
  simp only [hne, if_false, ne_eq, hlen, not_false_eq_true, if_true]
  simp

/-- A three-character header against the 64-character digest of the sample platform. -/
theorem mcPay_length_mismatch_example :
    (mcPay samplePlatform defaultSecret "id-1" "2024-01-01T00:00:01.000Z" []
        ⟨some "abc", bobBody⟩).res = ⟨401, errorBody "Bad signature"⟩ ∧
      Call.timingSafeEqual ∉ (mcPay samplePlatform defaultSecret "id-1"
        "2024-01-01T00:00:01.000Z" [] ⟨some "abc", bobBody⟩).calls ∧
      (mcPay samplePlatform defaultSecret "id-1" "2024-01-01T00:00:01.000Z" []
        ⟨some "abc", bobBody⟩).payments = [] :=
  mcPay_length_mismatch samplePlatform defaultSecret "id-1" "2024-01-01T00:00:01.000Z" []
    ⟨some "abc", bobBody⟩ (by decide)
    (by rw [(samplePlatform_hex defaultSecret bobBody).jsLength]; decide)

/-- On a `Buffer` body the full handler is `mcPay`. -/
theorem postMcPay_buffer (P : Platform) (SECRET uuid now : String) (payments : List Entry)
    (h : Option String) (bytes : List Nat) :
    postMcPay P SECRET uuid now payments ⟨h, .buffer bytes⟩ =
      mcPay P SECRET uuid now payments ⟨h, bytes⟩ := by
  unfold postMcPay mcPay
  simp only [hmacUpdate]
  split <;> rfl

/-- When `req.body` is not a `Buffer` and the trimmed header is not empty, `update`
throws at line 33 and the handler answers 500, whatever the header holds. -/
theorem postMcPay_notBuffer (P : Platform) (SECRET uuid now : String) (payments : List Entry)
    (h : Option String) (hne : jsTrim (h.getD "") ≠ "") :
    postMcPay P SECRET uuid now payments ⟨h, .notBuffer⟩ =
      ⟨⟨500, errorBody "Server error"⟩, payments, [.createHmac]⟩ := by
  unfold postMcPay
  simp only [hne, if_false, hmacUpdate]

/-- Claim C3, at the failing input. A request with `X-Signature: abc` whose
content type is not `application/json` (say `text/plain`, body `{"type":"x"}`):
`req.body` is not a `Buffer`; the trimmed header `abc` is not empty and its
length 3 differs from the 64 characters of a digest; yet the handler answers 500
`Server error` and not 401 `Bad signature`, because `update` throws at line 33,
before the length test of line 36. The ledger is left as it was and
`timingSafeEqual` is not called. -/
theorem C3_not_buffer_server_error (P : Platform) (SECRET uuid now : String)
    (payments : List Entry) :
    jsTrim "abc" ≠ "" ∧ jsLength (jsTrim "abc") ≠ 64 ∧
      postMcPay P SECRET uuid now payments ⟨some "abc", .notBuffer⟩ =
        ⟨⟨500, errorBody "Server error"⟩, payments, [.createHmac]⟩ ∧
      (⟨500, errorBody "Server error"⟩ : Response) ≠ ⟨401, errorBody "Bad signature"⟩ := by
  refine ⟨by decide, by decide, postMcPay_notBuffer P SECRET uuid now payments (some "abc")
    (by decide), ?_⟩
  intro h
  exact absurd (congrArg Response.status h) (by decide)

/-- The full handler either leaves `payments` alone or runs as `mcPay` does on the
bytes of a `Buffer` body. -/
theorem postMcPay_cases (P : Platform) (SECRET uuid now : String) (payments : List Entry)
    (r : HttpRequest) :
    (postMcPay P SECRET uuid now payments r).payments = payments ∨
      ∃ bytes, r.body = .buffer bytes ∧
        postMcPay P SECRET uuid now payments r =
          mcPay P SECRET uuid now payments ⟨r.xSignature, bytes⟩ := by
  cases hb : r.body with
  | buffer bytes =>
    right
    refine ⟨bytes, rfl, ?_⟩
    have := postMcPay_buffer P SECRET uuid now payments r.xSignature bytes
    rw [← hb] at this
    exact this
  | notBuffer =>
    left
    unfold postMcPay
    simp only [hb, hmacUpdate]
    split <;> rfl

/-- A request whose body is not a `Buffer` adds no ledger to the reachable ones. -/
theorem reachable_postMcPay (P : Platform) (SECRET uuid now : String) (payments : List Entry)
    (r : HttpRequest) (h : Reachable P SECRET payments) :
    Reachable P SECRET (postMcPay P SECRET uuid now payments r).payments := by
  rcases postMcPay_cases P SECRET uuid now payments r with hsame | ⟨bytes, _, hrun⟩
  · rw [hsame]; exact h
  · rw [hrun]; exact Reachable.post uuid now ⟨r.xSignature, bytes⟩ h

theorem trimChars_of_all_whitespace (l : List Char) (h : ∀ c ∈ l, isJsWhitespace c = true) :
    trimChars l = [] := by
  unfold trimChars
  rw [List.dropWhile_eq_nil_iff.mpr h]
  rfl

/-- Claim C4. A request whose `X-Signature` header is absent, empty or made only of
white space is answered 401 `Missing X-Signature`, an error text other than
`Bad signature`, whatever the body; `payments` is left as it was. -/
theorem C4_missing_signature (P : Platform) (SECRET uuid now : String)
    (payments : List Entry) (req : Request)
    (hws : ∀ h, req.xSignature = some h → ∀ c ∈ h.data, isJsWhitespace c = true) :
    (mcPay P SECRET uuid now payments req).res = ⟨401, errorBody "Missing X-Signature"⟩ ∧
      (mcPay P SECRET uuid now payments req).payments = payments ∧
      errorBody "Missing X-Signature" ≠ errorBody "Bad signature" := by
  have hsig : jsTrim (req.xSignature.getD "") = "" := by
    apply String.ext
    show trimChars (req.xSignature.getD "").data = []
    cases hx : req.xSignature with
    | none => rfl
    | some h => exact trimChars_of_all_whitespace _ (hws h hx)
  unfold mcPay
  simp only [hsig, if_true]
  refine ⟨trivial, trivial, ?_⟩
  intro h
  simp [errorBody] at h

/-- A header of two spaces and a tab. -/
theorem C4_missing_signature_witness :
    (mcPay samplePlatform defaultSecret "id-1" "2024-01-01T00:00:01.000Z" []
        ⟨some "  \t", bobBody⟩).res = ⟨401, errorBody "Missing X-Signature"⟩ ∧
      (mcPay samplePlatform defaultSecret "id-1" "2024-01-01T00:00:01.000Z" []
        ⟨some "  \t", bobBody⟩).payments = [] ∧
      errorBody "Missing X-Signature" ≠ errorBody "Bad signature" :=
  C4_missing_signature samplePlatform defaultSecret "id-1" "2024-01-01T00:00:01.000Z" []
    ⟨some "  \t", bobBody⟩ (by
      intro h hh
      cases hh
      decide)

/-- Every run of the handler either leaves `payments` alone and answers 400, 401
or 500, or passes the signature check and the field checks, answers 200 and
inserts the entry built from the payload. -/
theorem mcPay_cases (P : Platform) (SECRET uuid now : String) (payments : List Entry)
    (req : Request) :
    ((mcPay P SECRET uuid now payments req).payments = payments ∧
      ((mcPay P SECRET uuid now payments req).res.status = 400 ∨
        (mcPay P SECRET uuid now payments req).res.status = 401 ∨
        (mcPay P SECRET uuid now payments req).res.status = 500)) ∨
    (Authenticated P SECRET req ∧ ∃ payload payer amount ts,
      P.jsonParse req.body = some payload ∧ validate payload = .ok (payer, amount, ts) ∧
      mcPay P SECRET uuid now payments req =
        ⟨⟨200, okBody⟩,
          insert { id := uuid, payer := payer, amount := amount,
                   raw := orEmpty (payload.prop "raw"), ts := ts, receivedAt := now } payments,
          [.createHmac, .timingSafeEqual, .jsonParse]⟩) := by
  unfold Authenticated trimmedSignature mcPay
  simp only
  split
  · left; simp
  · rename_i hne
    split
    · left; simp
    · rename_i hlen
      split
      · left; simp
      · left; simp
      · rename_i heq
        unfold ingest
        split
        · left; simp
        · rename_i payload hp
          split
          · left; simp
          · rename_i payer amount ts hv
            right
            refine ⟨⟨hne, by simpa using hlen, heq⟩, payload, payer, amount, ts, hp, hv, rfl⟩

/-! ## Ledger -/

/-- Claim C5. The response status is 200, 400, 401 or 500; a request not answered
200 leaves `payments` as it was; and `payments` changes only when the response is
200 `{ok:true}`, the signature check has passed, the body has been decoded and
the four field checks have passed. -/
theorem C5_ledger_changes_only_on_200 (P : Platform) (SECRET uuid now : String)
    (payments : List Entry) (req : Request) :
    ((mcPay P SECRET uuid now payments req).res.status = 200 ∨
      (mcPay P SECRET uuid now payments req).res.status = 400 ∨
      (mcPay P SECRET uuid now payments req).res.status = 401 ∨
      (mcPay P SECRET uuid now payments req).res.status = 500) ∧
    ((mcPay P SECRET uuid now payments req).res.status ≠ 200 →
      (mcPay P SECRET uuid now payments req).payments = payments) ∧
    ((mcPay P SECRET uuid now payments req).payments ≠ payments →
      (mcPay P SECRET uuid now payments req).res = ⟨200, okBody⟩ ∧
      Authenticated P SECRET req ∧
      ∃ payload payer amount ts, P.jsonParse req.body = some payload ∧
        validate payload = .ok (payer, amount, ts)) := by
  rcases mcPay_cases P SECRET uuid now payments req with ⟨hsame, hst⟩ | ⟨hauth, payload, payer,
    amount, ts, hp, hv, hrun⟩
  · refine ⟨Or.inr hst, fun _ => hsame, fun hne => absurd hsame hne⟩
  · refine ⟨Or.inl (by rw [hrun]), fun hne => absurd (by rw [hrun]) hne, fun _ => ?_⟩
    exact ⟨by rw [hrun], hauth, payload, payer, amount, ts, hp, hv⟩

theorem validate_of_fields (payload : JsVal) (payer ts : String) (amount : JsNumber)
    (htype : payload.prop "type" = some (.str "pay_received"))
    (hpayer : payload.prop "payer" = some (.str payer)) (hpne : payer ≠ "")
    (hamount : payload.prop "amount" = some (.num amount)) (hnan : amount ≠ .nan)
    (hts : payload.prop "ts" = some (.str ts)) (htne : ts ≠ "") :
    validate payload = .ok (payer, amount, ts) := by
  have hn : amount.isNaN = false := by
    cases amount <;> simp_all [JsNumber.isNaN]
  simp [validate, htype, hpayer, hamount, hts, asString, asNumber, hpne, htne, hn]

theorem mcPay_of_authenticated (P : Platform) (SECRET uuid now : String) (payments : List Entry)
    (req : Request) (hauth : Authenticated P SECRET req) :
    mcPay P SECRET uuid now payments req = ingest P uuid now payments req.body := by
  obtain ⟨hne, hlen, heq⟩ := hauth
  unfold trimmedSignature at hne hlen heq
  unfold mcPay
  simp only [hne, if_false, hlen, ne_eq, not_true_eq_false, heq]

theorem authenticated_of_signature_eq (P : Platform) (SECRET : String) (req : Request)
    (hH : IsHexDigest (P.hmacSha256Hex SECRET req.body))
    (hsig : trimmedSignature req = P.hmacSha256Hex SECRET req.body) :
    Authenticated P SECRET req := by
  refine ⟨hsig ▸ hH.ne_empty, by rw [hsig], ?_⟩
  rw [hsig]
  simp [timingSafeEqual]

theorem bobRequest_authenticated : Authenticated samplePlatform defaultSecret bobRequest := by
  apply authenticated_of_signature_eq _ _ _ (samplePlatform_hex _ _)
  have h1 : samplePlatform.hmacSha256Hex defaultSecret bobRequest.body = bobDigest := by
    simp [samplePlatform, bobRequest]
  rw [h1]
  exact (show IsHexDigest bobDigest from ⟨by decide, by decide⟩).trim

set_option maxRecDepth 100000 in
theorem rawZeroBody_ne_bobBody : rawZeroBody ≠ bobBody := by decide

theorem rawZeroRequest_authenticated :
    Authenticated samplePlatform defaultSecret rawZeroRequest := by
  apply authenticated_of_signature_eq _ _ _ (samplePlatform_hex _ _)
  have h1 : samplePlatform.hmacSha256Hex defaultSecret rawZeroRequest.body = rawZeroDigest := by
    simp [samplePlatform, rawZeroRequest, rawZeroBody_ne_bobBody]
  rw [h1]
  exact (show IsHexDigest rawZeroDigest from ⟨by decide, by decide⟩).trim

theorem ingest_of_valid (P : Platform) (uuid now : String) (payments : List Entry)
    (rawBody : List Nat) (payload : JsVal) (payer ts : String) (amount : JsNumber)
    (hp : P.jsonParse rawBody = some payload) (hv : validate payload = .ok (payer, amount, ts)) :
    ingest P uuid now payments rawBody =
      ⟨⟨200, okBody⟩,
        insert { id := uuid, payer := payer, amount := amount,
                 raw := orEmpty (payload.prop "raw"), ts := ts, receivedAt := now } payments,
        [.createHmac, .timingSafeEqual, .jsonParse]⟩ := by
  unfold ingest
  simp only [hp, hv]

/-- Claim C6 as stated fails. The signed body
`{"type":"pay_received","payer":"Bob","amount":10,"ts":"2024-01-01T00:00:00Z","raw":0}`
passes the signature check and all field checks and its `raw` is the number `0`,
yet the entry stored has `raw` equal to the empty string, not to the payload's `raw`. -/
theorem C6_counterexample :
    Authenticated samplePlatform defaultSecret rawZeroRequest ∧
      samplePlatform.jsonParse rawZeroRequest.body = some rawZeroPayload ∧
      validate rawZeroPayload = .ok ("Bob", ten, "2024-01-01T00:00:00Z") ∧
      rawZeroPayload.prop "raw" = some (.num JsNumber.zero) ∧
      (mcPay samplePlatform defaultSecret "id-1" "2024-01-01T00:00:01.000Z" []
        rawZeroRequest).res.status = 200 ∧
      (mcPay samplePlatform defaultSecret "id-1" "2024-01-01T00:00:01.000Z" []
        rawZeroRequest).payments.map Entry.raw = [JsVal.str ""] ∧
      JsVal.str "" ≠ JsVal.num JsNumber.zero := by
  have hp : samplePlatform.jsonParse rawZeroRequest.body = some rawZeroPayload := by
    simp [samplePlatform, rawZeroRequest, rawZeroBody_ne_bobBody]
  have hv : validate rawZeroPayload = .ok ("Bob", ten, "2024-01-01T00:00:00Z") := by
    apply validate_of_fields <;> first | rfl | decide
  refine ⟨rawZeroRequest_authenticated, hp, hv, rfl, ?_, ?_, by simp⟩
  · rw [mcPay_of_authenticated _ _ _ _ _ _ rawZeroRequest_authenticated,
      ingest_of_valid _ _ _ _ _ _ _ _ _ hp hv]
  · rw [mcPay_of_authenticated _ _ _ _ _ _ rawZeroRequest_authenticated,
      ingest_of_valid _ _ _ _ _ _ _ _ _ hp hv]
    rfl

/-- Claim C6, amended. For every ledger `L` and every request that passes the
signature check and whose decoded payload passes the four field checks, the
response is 200 `{ok:true}` and the ledger afterwards is the first 200 elements
of `e :: L`, where `e` has `payer`, `amount` and `ts` copied from the payload and
`raw` equal to the payload's `raw` when that value is truthy and to the empty
string when `raw` is absent or falsy; when `L` holds exactly 200 entries the
result is `e` followed by `L` without its last entry. -/
theorem C6_insert_accepted (P : Platform) (SECRET uuid now : String) (L : List Entry)
    (req : Request) (payload : JsVal) (payer ts : String) (amount : JsNumber)
    (hauth : Authenticated P SECRET req)
    (hp : P.jsonParse req.body = some payload)
    (htype : payload.prop "type" = some (.str "pay_received"))
    (hpayer : payload.prop "payer" = some (.str payer)) (hpne : payer ≠ "")
    (hamount : payload.prop "amount" = some (.num amount)) (hnan : amount ≠ .nan)
    (hts : payload.prop "ts" = some (.str ts)) (htne : ts ≠ "") :
    ∃ e : Entry,
      (mcPay P SECRET uuid now L req).res = ⟨200, okBody⟩ ∧
      (mcPay P SECRET uuid now L req).payments = (e :: L).take 200 ∧
      e.id = uuid ∧ e.receivedAt = now ∧
      e.payer = payer ∧ e.amount = amount ∧ e.ts = ts ∧
      (payload.prop "raw" = none → e.raw = .str "") ∧
      (∀ v, payload.prop "raw" = some v → v.truthy = true → e.raw = v) ∧
      (∀ v, payload.prop "raw" = some v → v.truthy = false → e.raw = .str "") ∧
      (L.length = 200 → (mcPay P SECRET uuid now L req).payments = e :: L.dropLast) := by
  have hv := validate_of_fields payload payer ts amount htype hpayer hpne hamount hnan hts htne
  have hrun := mcPay_of_authenticated P SECRET uuid now L req hauth
  rw [ingest_of_valid P uuid now L req.body payload payer ts amount hp hv] at hrun
  refine ⟨{ id := uuid, payer := payer, amount := amount,
            raw := orEmpty (payload.prop "raw"), ts := ts, receivedAt := now },
    by rw [hrun], by rw [hrun]; rfl, rfl, rfl, rfl, rfl, rfl, ?_, ?_, ?_, ?_⟩
  · intro h
    simp [h, orEmpty]
  · intro v h ht
    simp [h, orEmpty, ht]
  · intro v h ht
    simp [h, orEmpty, ht]
  · intro hlen
    rw [hrun]
    show List.take 200 (_ :: L) = _
    rw [List.take_succ_cons, List.dropLast_eq_take, hlen]

/-- The end-to-end example request on the empty ledger. -/
theorem C6_insert_accepted_witness :
    ∃ e : Entry,
      (mcPay samplePlatform defaultSecret "id-1" "2024-01-01T00:00:01.000Z" []
        bobRequest).res = ⟨200, okBody⟩ ∧
      (mcPay samplePlatform defaultSecret "id-1" "2024-01-01T00:00:01.000Z" []
        bobRequest).payments = (e :: []).take 200 ∧
      e.id = "id-1" ∧ e.receivedAt = "2024-01-01T00:00:01.000Z" ∧
      e.payer = "Bob" ∧ e.amount = ten ∧ e.ts = "2024-01-01T00:00:00Z" ∧
      (bobPayload.prop "raw" = none → e.raw = .str "") ∧
      (∀ v, bobPayload.prop "raw" = some v → v.truthy = true → e.raw = v) ∧
      (∀ v, bobPayload.prop "raw" = some v → v.truthy = false → e.raw = .str "") ∧
      (([] : List Entry).length = 200 →
        (mcPay samplePlatform defaultSecret "id-1" "2024-01-01T00:00:01.000Z" []
          bobRequest).payments = e :: ([] : List Entry).dropLast) :=
  C6_insert_accepted samplePlatform defaultSecret "id-1" "2024-01-01T00:00:01.000Z" []
    bobRequest bobPayload "Bob" "2024-01-01T00:00:00Z" ten bobRequest_authenticated
    (by simp [samplePlatform, bobRequest]) rfl rfl (by decide) rfl (by decide) rfl (by decide)

theorem insert_eq (e : Entry) (L : List Entry) : insert e L = (e :: L).take 200 := rfl

theorem length_insert_le (e : Entry) (L : List Entry) : (insert e L).length ≤ 200 := by
  rw [insert_eq, List.length_take]
  exact Nat.min_le_left _ _

theorem take_append_take {α : Type} (n : Nat) (A B : List α) :
    (A ++ B.take n).take n = (A ++ B).take n := by
  rw [List.take_append_eq_append_take, List.take_append_eq_append_take, List.take_take]
  congr 2
  omega

/-- Inserting `es` one after another into a ledger within the cap gives the first
200 elements of `es` reversed followed by the ledger. -/
theorem insertAll_eq (es : List Entry) :
    ∀ L : List Entry, L.length ≤ 200 → insertAll es L = (es.reverse ++ L).take 200 := by
  induction es with
  | nil =>
    intro L hL
    simp only [insertAll, List.foldl_nil, List.reverse_nil, List.nil_append]
    exact (List.take_of_length_le hL).symm
  | cons e es ih =>
    intro L _
    have h : insertAll (e :: es) L = insertAll es (insert e L) := rfl
    rw [h, ih _ (length_insert_le e L), insert_eq, take_append_take, List.reverse_cons,
      List.append_assoc]
    rfl

theorem insertAll_nil_eq (es : List Entry) : insertAll es [] = es.reverse.take 200 := by
  rw [insertAll_eq es [] (by simp), List.append_nil]

theorem reachable_length_le (P : Platform) (SECRET : String) (L : List Entry)
    (h : Reachable P SECRET L) : L.length ≤ 200 := by
  induction h with
  | start => simp
  | @post payments uuid now req _ ih =>
    rcases mcPay_cases P SECRET uuid now payments req with ⟨hsame, _⟩ | ⟨_, payload, payer,
      amount, ts, _, _, hrun⟩
    · rw [hsame]; exact ih
    · rw [hrun]; exact length_insert_le _ _
  | @balance payments q _ ih =>
    have : (getBalance P payments q).payments = payments := by
      unfold getBalance
      simp only
      split <;> rfl
    rw [this]; exact ih

/-- Claim C7. Every ledger reachable from the empty one by `POST /mc-pay` and
`GET /balance` requests, accepted or rejected, holds at most 200 entries, and a
single insertion into any array leaves at most 200 entries. -/
theorem C7_ledger_at_most_200 (P : Platform) (SECRET : String) (L : List Entry)
    (h : Reachable P SECRET L) :
    L.length ≤ 200 ∧ ∀ (e : Entry) (M : List Entry), (insert e M).length ≤ 200 :=
  ⟨reachable_length_le P SECRET L h, length_insert_le⟩

/-- The ledger after the end-to-end example request and a balance query. -/
theorem C7_ledger_at_most_200_witness :
    (getBalance samplePlatform (mcPay samplePlatform defaultSecret "id-1"
        "2024-01-01T00:00:01.000Z" [] bobRequest).payments (.str "Bob")).payments.length ≤ 200 ∧
      ∀ (e : Entry) (M : List Entry), (insert e M).length ≤ 200 :=
  C7_ledger_at_most_200 samplePlatform defaultSecret _
    (Reachable.balance (.str "Bob")
      (Reachable.post "id-1" "2024-01-01T00:00:01.000Z" bobRequest Reachable.start))

/-- Claim C8. Inserting `n ≥ 200` entries one after another into the empty ledger
leaves exactly 200 entries, the last 200 of the sequence in reverse insertion
order; with `n = 250` they are the sequence without its first 50, reversed. -/
theorem C8_keeps_most_recent_200 (es : List Entry) (hn : 200 ≤ es.length) :
    (insertAll es []).length = 200 ∧
      insertAll es [] = (es.drop (es.length - 200)).reverse ∧
      (es.length = 250 → insertAll es [] = (es.drop 50).reverse) := by
  have h1 : insertAll es [] = (es.drop (es.length - 200)).reverse := by
    rw [insertAll_nil_eq, List.take_reverse]
  refine ⟨?_, h1, fun h250 => ?_⟩
  · rw [h1, List.length_reverse, List.length_drop]
    omega
  · rw [h1, h250]

/-- The run of 250 insertions of the specification. -/
theorem C8_keeps_most_recent_200_witness :
    (insertAll (sampleEntries 250) []).length = 200 ∧
      insertAll (sampleEntries 250) [] = ((sampleEntries 250).drop 50).reverse := by
  have h := C8_keeps_most_recent_200 (sampleEntries 250) (by simp [sampleEntries])
  exact ⟨h.1, h.2.2 (by simp [sampleEntries])⟩

/-- Claim C9. After inserting `es` one after another into the empty ledger, index
`i` of the ledger holds the entry of insertion number `es.length - 1 - i`, so of
two retained entries the one inserted later sits at the smaller index; and after
inserting `A` then `B` into any ledger, `B` is at index 0 and `A` at index 1. -/
theorem C9_newest_first (es L : List Entry) (A B : Entry) :
    (∀ i, i < (insertAll es []).length →
      (insertAll es [])[i]? = es[es.length - 1 - i]?) ∧
    (∀ i j, i < j → j < (insertAll es []).length →
      es.length - 1 - j < es.length - 1 - i) ∧
    (insert B (insert A L))[0]? = some B ∧ (insert B (insert A L))[1]? = some A := by
  have hlen : (insertAll es []).length = min 200 es.length := by
    rw [insertAll_nil_eq, List.length_take, List.length_reverse]
  refine ⟨fun i hi => ?_, fun i j hij hj => ?_, by simp [insert, splice, unshift],
    by simp [insert, splice, unshift]⟩
  · rw [hlen] at hi
    have hi1 : i < 200 := by omega
    have hi2 : i < es.length := by omega
    rw [insertAll_nil_eq, List.getElem?_take_of_lt hi1, List.getElem?_reverse hi2]
  · rw [hlen] at hj
    omega

/-! ## Balance -/

namespace JsNumber

theorem mag_eq_zero {e : Fin 2047} {f : Fin 4503599627370496} (h : mag e f = 0) :
    e = 0 ∧ f = 0 := by
  unfold mag at h
  split at h
  · rename_i he
    exact ⟨Fin.ext he, Fin.ext h⟩
  · exfalso
    have h2 : 0 < 2 ^ (e.val - 1) := Nat.two_pow_pos _
    have h3 : 0 < 4503599627370496 + f.val := by omega
    have := Nat.mul_pos h3 h2
    omega

theorem pow_bitLog_le (fuel : Nat) : ∀ n, 1 ≤ n → 2 ^ bitLog fuel n ≤ n := by
  induction fuel with
  | zero => intro n hn; simpa [bitLog] using hn
  | succ k ih =>
    intro n hn
    unfold bitLog
    split
    · simpa using hn
    · have h2 : 1 ≤ n / 2 := by omega
      have := ih (n / 2) h2
      rw [Nat.pow_succ]
      omega

theorem le_roundShift (m shift : Nat) : m / 2 ^ shift ≤ roundShift m shift := by
  unfold roundShift
  simp only
  split <;> omega

theorem le_div_pow_bitLog (m : Nat) (hbig : ¬ m < 4503599627370496) :
    4503599627370496 ≤ m / 2 ^ (bitLog m m - 52) := by
  have hpow := pow_bitLog_le m m (by omega)
  rw [Nat.le_div_iff_mul_le (Nat.two_pow_pos _)]
  by_cases hl : 52 ≤ bitLog m m
  · calc 4503599627370496 * 2 ^ (bitLog m m - 52)
        = 2 ^ 52 * 2 ^ (bitLog m m - 52) := by norm_num
      _ = 2 ^ (52 + (bitLog m m - 52)) := by rw [Nat.pow_add]
      _ = 2 ^ bitLog m m := by congr 1; omega
      _ ≤ m := hpow
  · have : bitLog m m - 52 = 0 := by omega
    rw [this]
    omega

theorem ofMag_ne_negZero (neg : Bool) (m : Nat) (hm : m ≠ 0) : ofMag neg m ≠ negZero := by
  unfold ofMag negZero
  by_cases hsmall : m < 4503599627370496
  · rw [dif_pos hsmall]
    intro h
    injection h with _ _ hf
    exact hm (by simpa using congrArg Fin.val hf)
  · rw [dif_neg hsmall]
    simp only
    have hq := Nat.le_trans (le_div_pow_bitLog m hsmall) (le_roundShift m (bitLog m m - 52))
    have hq1 : 0 < roundShift m (bitLog m m - 52) / 4503599627370496 :=
      Nat.div_pos hq (by decide)
    by_cases hex : bitLog m m - 52 + roundShift m (bitLog m m - 52) / 4503599627370496 < 2047
    · rw [dif_pos hex]
      intro h
      injection h with _ he _
      have he0 := congrArg Fin.val he
      simp only [Fin.val_zero] at he0
      omega
    · rw [dif_neg hex]
      intro h
      cases h

theorem add_ne_negZero (s a : JsNumber) (hs : s ≠ negZero) : add s a ≠ negZero := by
  cases s with
  | nan => cases a <;> simp [add, negZero]
  | inf sn =>
    cases a with
    | nan => simp [add, negZero]
    | inf an =>
      simp only [add]
      split <;> simp [negZero]
    | fin _ _ _ => simp [add, negZero]
  | fin s1 e1 f1 =>
    cases a with
    | nan => simp [add, negZero]
    | inf an => simp [add, negZero]
    | fin s2 e2 f2 =>
      simp only [add]
      split
      · rename_i h0
        intro h
        apply hs
        obtain ⟨he, hf⟩ := mag_eq_zero h0.1
        unfold negZero at h ⊢
        injection h with hsn _ _
        have hs1 : s1 = true := by
          cases s1 <;> simp_all
        rw [hs1, he, hf]
      · rename_i h0
        split
        · apply ofMag_ne_negZero
          omega
        · split
          · simp [zero, negZero]
          · split
            · apply ofMag_ne_negZero; omega
            · apply ofMag_ne_negZero; omega

theorem isZero_iff {a : JsNumber} (h : a.isZero = true) : a = zero ∨ a = negZero := by
  cases a with
  | nan => simp [isZero] at h
  | inf _ => simp [isZero] at h
  | fin sa e f =>
    simp only [isZero, decide_eq_true_eq] at h
    obtain ⟨he, hf⟩ := mag_eq_zero h
    subst he hf
    cases sa
    · left; rfl
    · right; rfl

theorem add_negZero (s : JsNumber) (hs : s ≠ negZero) : add s negZero = add s zero := by
  cases s with
  | nan => rfl
  | inf _ => rfl
  | fin s1 e1 f1 =>
    have hm0 : mag 0 0 = 0 := rfl
    simp only [add, negZero, zero, hm0, and_true, Nat.add_zero, Nat.sub_zero]
    by_cases hx : mag e1 f1 = 0
    · obtain ⟨he, hf⟩ := mag_eq_zero hx
      subst he hf
      have hs1 : s1 = false := by
        cases s1
        · rfl
        · exact absurd rfl hs
      simp [hs1, hm0]
    · have hpos : 0 < mag e1 f1 := Nat.pos_of_ne_zero hx
      simp only [hx, if_false, hpos, if_true, Nat.zero_sub]
      split <;> split <;> rfl

end JsNumber

theorem add_amountOrZero (s a : JsNumber) (hs : s ≠ JsNumber.negZero) (ha : a ≠ JsNumber.nan) :
    JsNumber.add s (amountOrZero a) = JsNumber.add s a := by
  unfold amountOrZero
  split
  · rename_i h
    rw [Bool.or_eq_true] at h
    rcases h with h | h
    · rcases JsNumber.isZero_iff h with h0 | h0
      · rw [h0]
      · rw [h0, JsNumber.add_negZero s hs]
    · cases a <;> simp_all [JsNumber.isNaN]
  · rfl

theorem foldl_amountOrZero (l : List Entry) (hl : ∀ e ∈ l, e.amount ≠ JsNumber.nan) :
    ∀ s : JsNumber, s ≠ JsNumber.negZero →
      l.foldl (fun sum p => JsNumber.add sum (amountOrZero p.amount)) s =
        l.foldl (fun sum p => JsNumber.add sum p.amount) s := by
  induction l with
  | nil => intro s _; rfl
  | cons e es ih =>
    intro s hs
    have he : e.amount ≠ JsNumber.nan := hl e (List.mem_cons_self _ _)
    have hes : ∀ x ∈ es, x.amount ≠ JsNumber.nan := fun x hx => hl x (List.mem_cons_of_mem _ hx)
    simp only [List.foldl_cons]
    rw [add_amountOrZero s e.amount hs he]
    exact ih hes _ (JsNumber.add_ne_negZero s e.amount hs)

/-- What the four field checks establish about an accepted payload. -/
theorem validate_ok (payload : JsVal) (payer ts : String) (amount : JsNumber)
    (hv : validate payload = .ok (payer, amount, ts)) :
    payload.prop "type" = some (.str "pay_received") ∧
      payload.prop "payer" = some (.str payer) ∧ payer ≠ "" ∧
      payload.prop "amount" = some (.num amount) ∧ amount ≠ .nan ∧
      payload.prop "ts" = some (.str ts) ∧ ts ≠ "" := by
  unfold validate at hv
  split at hv
  · cases hv
  · rename_i htype
    split at hv
    · cases hv
    · rename_i p hp
      split at hv
      · cases hv
      · rename_i hpne
        split at hv
        · cases hv
        · rename_i a ha
          split at hv
          · cases hv
          · rename_i hnan
            split at hv
            · cases hv
            · rename_i t ht
              split at hv
              · cases hv
              · rename_i htne
                simp only [Except.ok.injEq, Prod.mk.injEq] at hv
                obtain ⟨h1, h2, h3⟩ := hv
                subst h1 h2 h3
                have asString_some : ∀ (v : Option JsVal) (x : String),
                    asString v = some x → v = some (.str x) := by
                  intro v x hx
                  unfold asString at hx
                  split at hx
                  · simp only [Option.some.injEq] at hx
                    rw [hx]
                  · cases hx
                have asNumber_some : ∀ (v : Option JsVal) (x : JsNumber),
                    asNumber v = some x → v = some (.num x) := by
                  intro v x hx
                  unfold asNumber at hx
                  split at hx
                  · simp only [Option.some.injEq] at hx
                    rw [hx]
                  · cases hx
                refine ⟨asString_some _ _ (by simpa using htype), asString_some _ _ hp, hpne,
                  asNumber_some _ _ ha, ?_, asString_some _ _ ht, htne⟩
                intro hn
                rw [hn] at hnan
                exact hnan rfl

theorem getBalance_payments (P : Platform) (payments : List Entry) (q : QueryValue) :
    (getBalance P payments q).payments = payments := by
  unfold getBalance
  simp only
  split <;> rfl

theorem mem_insert {x e : Entry} {L : List Entry} (h : x ∈ insert e L) : x = e ∨ x ∈ L := by
  rw [insert_eq] at h
  exact List.mem_cons.mp (List.mem_of_mem_take h)

/-- No reachable ledger holds an entry whose amount is NaN. -/
theorem reachable_amount_ne_nan (P : Platform) (SECRET : String) (L : List Entry)
    (h : Reachable P SECRET L) : ∀ e ∈ L, e.amount ≠ JsNumber.nan := by
  induction h with
  | start => intro e he; cases he
  | @post payments uuid now req _ ih =>
    rcases mcPay_cases P SECRET uuid now payments req with ⟨hsame, _⟩ | ⟨_, payload, payer,
      amount, ts, _, hv, hrun⟩
    · rw [hsame]; exact ih
    · rw [hrun]
      intro x hx
      rcases mem_insert hx with hxe | hxL
      · rw [hxe]
        exact (validate_ok payload payer ts amount hv).2.2.2.2.1
      · exact ih x hxL
  | @balance payments q _ ih =>
    rw [getBalance_payments]; exact ih

theorem balanceOf_eq_sum (P : Platform) (L : List Entry) (user : String)
    (hL : ∀ e ∈ L, e.amount ≠ JsNumber.nan) :
    balanceOf P L user = sumOfAmounts (entriesOf P L user) := by
  unfold balanceOf sumOfAmounts entriesOf
  apply foldl_amountOrZero
  · intro e he
    exact hL e (List.mem_of_mem_filter he)
  · simp [JsNumber.zero, JsNumber.negZero]

/-- Claim C10. On every reachable ledger and for every query string `user` whose
trimmed form `u` is not empty, `GET /balance` answers 200
`{ok:true, user:u, balance:b}` and leaves the ledger alone, where `b` is the sum,
starting from `0`, of the amounts of exactly the retained entries whose payer
lower-cased equals `u` lower-cased; an entry of another payer, wherever it sits
in the ledger, contributes nothing. -/
theorem C10_balance_is_sum_of_matching (P : Platform) (SECRET : String) (L : List Entry)
    (user : String) (hL : Reachable P SECRET L) (hu : jsTrim user ≠ "") :
    getBalance P L (.str user) =
      ⟨⟨200, .obj [("ok", .bool true), ("user", .str (jsTrim user)),
          ("balance", .num (sumOfAmounts (entriesOf P L (jsTrim user))))]⟩, L, []⟩ ∧
    (∀ p, p ∈ entriesOf P L (jsTrim user) ↔
      p ∈ L ∧ P.toLowerCase p.payer = P.toLowerCase (jsTrim user)) ∧
    (∀ (L1 L2 : List Entry) (e : Entry), L = L1 ++ e :: L2 →
      P.toLowerCase e.payer ≠ P.toLowerCase (jsTrim user) →
      sumOfAmounts (entriesOf P L (jsTrim user)) =
        sumOfAmounts (entriesOf P (L1 ++ L2) (jsTrim user))) := by
  refine ⟨?_, ?_, ?_⟩
  · unfold getBalance
    simp only [queryToString, hu, if_false]
    rw [balanceOf_eq_sum P L _ (reachable_amount_ne_nan P SECRET L hL)]
  · intro p
    simp [entriesOf, List.mem_filter]
  · intro L1 L2 e hsplit hne
    rw [hsplit]
    unfold entriesOf
    rw [List.filter_append, List.filter_cons, List.filter_append]
    simp [hne]

/-- The query ` Bob ` on the ledger left by the end-to-end example request. -/
theorem C10_balance_is_sum_of_matching_witness :
    getBalance samplePlatform (mcPay samplePlatform defaultSecret "id-1"
        "2024-01-01T00:00:01.000Z" [] bobRequest).payments (.str " Bob ") =
      ⟨⟨200, .obj [("ok", .bool true), ("user", .str (jsTrim " Bob ")),
          ("balance", .num (sumOfAmounts (entriesOf samplePlatform
            (mcPay samplePlatform defaultSecret "id-1" "2024-01-01T00:00:01.000Z" []
              bobRequest).payments (jsTrim " Bob "))))]⟩,
        (mcPay samplePlatform defaultSecret "id-1" "2024-01-01T00:00:01.000Z" []
          bobRequest).payments, []⟩ :=
  (C10_balance_is_sum_of_matching samplePlatform defaultSecret _ " Bob "
    (Reachable.post "id-1" "2024-01-01T00:00:01.000Z" bobRequest Reachable.start)
    (by decide)).1

/-- A request carrying the tabulated body and digest passes the signature check. -/
theorem tablePlatform_authenticated (body : List Nat) (digest : String) (payload : JsVal)
    (hd : IsHexDigest digest) :
    Authenticated (tablePlatform body digest payload) defaultSecret ⟨some digest, body⟩ := by
  have h1 : (tablePlatform body digest payload).hmacSha256Hex defaultSecret body = digest := by
    simp [tablePlatform]
  apply authenticated_of_signature_eq
  · show IsHexDigest ((tablePlatform body digest payload).hmacSha256Hex defaultSecret body)
    rw [h1]; exact hd
  · show jsTrim digest = (tablePlatform body digest payload).hmacSha256Hex defaultSecret body
    rw [h1]; exact hd.trim

theorem tablePlatform_jsonParse (body : List Nat) (digest : String) (payload : JsVal) :
    (tablePlatform body digest payload).jsonParse body = some payload := by
  simp [tablePlatform]

theorem balanceOf_congr (P : Platform) (L : List Entry) (u1 u2 : String)
    (h : P.toLowerCase u1 = P.toLowerCase u2) : balanceOf P L u1 = balanceOf P L u2 := by
  unfold balanceOf
  rw [h]

theorem getBalance_of_ne (P : Platform) (L : List Entry) (user : String)
    (hu : jsTrim user ≠ "") :
    getBalance P L (.str user) =
      ⟨⟨200, .obj [("ok", .bool true), ("user", .str (jsTrim user)),
          ("balance", .num (balanceOf P L (jsTrim user)))]⟩, L, []⟩ := by
  unfold getBalance
  simp only [queryToString, hu, if_false]

theorem steve_sum : JsNumber.add (JsNumber.add JsNumber.zero (amountOrZero three))
    (amountOrZero five) = eight := by decide!

/-- Claim C11. Two query payers that agree after trimming and lower-casing get
the same balance on every ledger, and when neither trims to the empty string
both get a 200 response with that balance. After inserting
`{payer:"Steve",amount:5}` and then `{payer:"steve",amount:3}` into the empty
ledger, the queries `STEVE`, `Steve` and `steve` (all lower-cased to `steve`) are
each answered with balance 8. -/
theorem C11_balance_case_insensitive (P : Platform) (L : List Entry) (q1 q2 : String)
    (e1 e2 : Entry)
    (hq : P.toLowerCase (jsTrim q1) = P.toLowerCase (jsTrim q2))
    (h1 : e1.payer = "Steve") (h1a : e1.amount = five)
    (h2 : e2.payer = "steve") (h2a : e2.amount = three)
    (hU : P.toLowerCase "STEVE" = "steve") (hS : P.toLowerCase "Steve" = "steve")
    (hs : P.toLowerCase "steve" = "steve") :
    balanceOf P L (jsTrim q1) = balanceOf P L (jsTrim q2) ∧
    (jsTrim q1 ≠ "" → jsTrim q2 ≠ "" →
      (getBalance P L (.str q1)).res =
        ⟨200, .obj [("ok", .bool true), ("user", .str (jsTrim q1)),
          ("balance", .num (balanceOf P L (jsTrim q1)))]⟩ ∧
      (getBalance P L (.str q2)).res =
        ⟨200, .obj [("ok", .bool true), ("user", .str (jsTrim q2)),
          ("balance", .num (balanceOf P L (jsTrim q1)))]⟩) ∧
    (getBalance P (insertAll [e1, e2] []) (.str "STEVE")).res =
      ⟨200, .obj [("ok", .bool true), ("user", .str "STEVE"), ("balance", .num eight)]⟩ ∧
    (getBalance P (insertAll [e1, e2] []) (.str "Steve")).res =
      ⟨200, .obj [("ok", .bool true), ("user", .str "Steve"), ("balance", .num eight)]⟩ ∧
    (getBalance P (insertAll [e1, e2] []) (.str "steve")).res =
      ⟨200, .obj [("ok", .bool true), ("user", .str "steve"), ("balance", .num eight)]⟩ := by
  have hbal := balanceOf_congr P L _ _ hq
  have hL : insertAll [e1, e2] [] = [e2, e1] := by
    simp [insertAll, insert, splice, unshift]
  have key : ∀ u : String, P.toLowerCase u = "steve" → balanceOf P [e2, e1] u = eight := by
    intro u hu
    simp only [balanceOf, List.filter, h1, h2, hS, hs, hu, decide_True, List.foldl_cons,
      List.foldl_nil, h1a, h2a]
    exact steve_sum
  have tU : jsTrim "STEVE" = "STEVE" := by decide
  have tS : jsTrim "Steve" = "Steve" := by decide
  have ts : jsTrim "steve" = "steve" := by decide
  refine ⟨hbal, fun hn1 hn2 => ?_, ?_, ?_, ?_⟩
  · rw [getBalance_of_ne P L q1 hn1, getBalance_of_ne P L q2 hn2, hbal]
    exact ⟨rfl, rfl⟩
  · rw [hL, getBalance_of_ne P _ "STEVE" (by decide), tU, key _ hU]
  · rw [hL, getBalance_of_ne P _ "Steve" (by decide), tS, key _ hS]
  · rw [hL, getBalance_of_ne P _ "steve" (by decide), ts, key _ hs]

/-- The queries ` Bob` and `BOB ` on a one-entry ledger, and the example of the
specification on the sample platform. -/
theorem C11_balance_case_insensitive_witness :
    balanceOf samplePlatform [sampleEntry 0] (jsTrim " Bob") =
        balanceOf samplePlatform [sampleEntry 0] (jsTrim "BOB ") ∧
      (getBalance samplePlatform (insertAll [steveFive, steveThree] []) (.str "STEVE")).res =
        ⟨200, .obj [("ok", .bool true), ("user", .str "STEVE"), ("balance", .num eight)]⟩ := by
  have h := C11_balance_case_insensitive samplePlatform [sampleEntry 0] " Bob" "BOB "
    steveFive steveThree (by decide) rfl rfl rfl rfl (by decide) (by decide) (by decide)
  exact ⟨h.1, h.2.2.1⟩

theorem balanceOf_of_no_match (P : Platform) (L : List Entry) (user : String)
    (hno : ∀ p ∈ L, P.toLowerCase p.payer ≠ P.toLowerCase user) :
    balanceOf P L user = JsNumber.zero := by
  unfold balanceOf
  have : L.filter (fun p => decide (P.toLowerCase p.payer = P.toLowerCase user)) = [] := by
    rw [List.filter_eq_nil_iff]
    intro p hp
    simpa using hno p hp
  rw [this]
  rfl

/-- Claim C12. On every ledger, the empty one included, a query payer whose
trimmed form is not empty and matches no retained entry without regard to case
is answered 200 with balance `0`. -/
theorem C12_unknown_payer_zero (P : Platform) (L : List Entry) (user : String)
    (hu : jsTrim user ≠ "")
    (hno : ∀ p ∈ L, P.toLowerCase p.payer ≠ P.toLowerCase (jsTrim user)) :
    (getBalance P L (.str user)).res =
        ⟨200, .obj [("ok", .bool true), ("user", .str (jsTrim user)),
          ("balance", .num JsNumber.zero)]⟩ ∧
      (getBalance P [] (.str user)).res =
        ⟨200, .obj [("ok", .bool true), ("user", .str (jsTrim user)),
          ("balance", .num JsNumber.zero)]⟩ := by
  rw [getBalance_of_ne P L user hu, getBalance_of_ne P [] user hu,
    balanceOf_of_no_match P L _ hno]
  exact ⟨rfl, rfl⟩

/-- The query `nobody` on a ledger holding one entry of `Bob`. -/
theorem C12_unknown_payer_zero_witness :
    (getBalance samplePlatform [sampleEntry 0] (.str "nobody")).res =
        ⟨200, .obj [("ok", .bool true), ("user", .str (jsTrim "nobody")),
          ("balance", .num JsNumber.zero)]⟩ ∧
      (getBalance samplePlatform [] (.str "nobody")).res =
        ⟨200, .obj [("ok", .bool true), ("user", .str (jsTrim "nobody")),
          ("balance", .num JsNumber.zero)]⟩ :=
  C12_unknown_payer_zero samplePlatform [sampleEntry 0] "nobody" (by decide) (by
    intro p hp
    have : p = sampleEntry 0 := by simpa using hp
    subst this
    decide)

/-- Claim C13. A `GET /balance` request, answered 200 or rejected with 400
`Missing user`, leaves the ledger as it was: the array after the request is the
array before it. -/
theorem C13_balance_leaves_ledger (P : Platform) (L : List Entry) (q : QueryValue) :
    (getBalance P L q).payments = L ∧
      (jsTrim (queryToString q) = "" →
        getBalance P L q = ⟨⟨400, errorBody "Missing user"⟩, L, []⟩) ∧
      (jsTrim (queryToString q) ≠ "" → (getBalance P L q).res.status = 200) := by
  refine ⟨getBalance_payments P L q, fun h => ?_, fun h => ?_⟩
  · unfold getBalance
    simp only [h, if_true]
  · unfold getBalance
    simp only [h, if_false]

/-! ## Validation -/

/-- The outcome of `validate` by the first check that fails. -/
theorem validate_cases (payload : JsVal) :
    (typeOk payload = false ∧ validate payload = .error "type must be pay_received") ∨
    (typeOk payload = true ∧ payerOk payload = false ∧
      validate payload = .error "payer must be string") ∨
    (typeOk payload = true ∧ payerOk payload = true ∧ amountOk payload = false ∧
      validate payload = .error "amount must be number") ∨
    (typeOk payload = true ∧ payerOk payload = true ∧ amountOk payload = true ∧
      tsOk payload = false ∧ validate payload = .error "ts must be string") ∨
    (typeOk payload = true ∧ payerOk payload = true ∧ amountOk payload = true ∧
      tsOk payload = true ∧ ∃ payer amount ts, validate payload = .ok (payer, amount, ts)) := by
  unfold validate typeOk payerOk amountOk tsOk
  by_cases ht : asString (payload.prop "type") = some "pay_received"
  · simp only [ht, ne_eq, not_true_eq_false, if_false, decide_True, true_and]
    cases hp : asString (payload.prop "payer") with
    | none => simp
    | some payer =>
      by_cases hpe : payer = ""
      · simp [hpe]
      · simp only [hpe, if_false, ne_eq, not_false_eq_true, decide_True, true_and]
        cases ha : asNumber (payload.prop "amount") with
        | none => simp
        | some amount =>
          cases hn : amount.isNaN with
          | true => simp [hn]
          | false =>
            cases hts : asString (payload.prop "ts") with
            | none => simp [hn]
            | some ts =>
              by_cases hte : ts = ""
              · simp [hn, hte]
              · simp [hn, hte]
  · simp [ht]

theorem mcPay_res_of_validate_error (P : Platform) (SECRET uuid now : String) (L : List Entry)
    (req : Request) (payload : JsVal) (msg : String) (hauth : Authenticated P SECRET req)
    (hp : P.jsonParse req.body = some payload) (hv : validate payload = .error msg) :
    mcPay P SECRET uuid now L req =
      ⟨⟨400, errorBody msg⟩, L, [.createHmac, .timingSafeEqual, .jsonParse]⟩ := by
  rw [mcPay_of_authenticated P SECRET uuid now L req hauth]
  unfold ingest
  simp only [hp, hv]

theorem response_error_inj {a b : Nat} {m n : String}
    (h : (⟨a, errorBody m⟩ : Response) = ⟨b, errorBody n⟩) : m = n := by
  simp only [errorBody, Response.mk.injEq, JsVal.obj.injEq, List.cons.injEq, Prod.mk.injEq,
    JsVal.str.injEq] at h
  exact h.2.2.1.2

theorem response_ok_ne_error {a : Nat} {m : String} :
    (⟨200, okBody⟩ : Response) ≠ ⟨a, errorBody m⟩ := by
  intro h
  simp [okBody, errorBody] at h

/-- Claim C14. For a request that passes the signature check and whose body
decodes, the error reported is that of the first failing check in the order
type, payer, amount, ts: a decoded value whose `type` is not `pay_received`
(any value that is not an object included) gets `type must be pay_received`
whatever its other fields; a payer error is reported exactly when the type check
passes and the payer check fails, an amount error exactly when type and payer
pass and amount fails, a ts error exactly when type, payer and amount pass and
ts fails. -/
theorem C14_first_failing_check (P : Platform) (SECRET uuid now : String) (L : List Entry)
    (req : Request) (payload : JsVal) (hauth : Authenticated P SECRET req)
    (hp : P.jsonParse req.body = some payload) :
    (typeOk payload = false →
      (mcPay P SECRET uuid now L req).res = ⟨400, errorBody "type must be pay_received"⟩) ∧
    ((∀ fields, payload ≠ .obj fields) →
      (mcPay P SECRET uuid now L req).res = ⟨400, errorBody "type must be pay_received"⟩) ∧
    ((mcPay P SECRET uuid now L req).res = ⟨400, errorBody "payer must be string"⟩ ↔
      (typeOk payload = true ∧ payerOk payload = false)) ∧
    ((mcPay P SECRET uuid now L req).res = ⟨400, errorBody "amount must be number"⟩ ↔
      (typeOk payload = true ∧ payerOk payload = true ∧ amountOk payload = false)) ∧
    ((mcPay P SECRET uuid now L req).res = ⟨400, errorBody "ts must be string"⟩ ↔
      (typeOk payload = true ∧ payerOk payload = true ∧ amountOk payload = true ∧
        tsOk payload = false)) := by
  have hnonobj : (∀ fields, payload ≠ .obj fields) → typeOk payload = false := by
    intro h
    cases payload with
    | obj fields => exact absurd rfl (h fields)
    | _ => rfl
  have herr := fun msg hv => mcPay_res_of_validate_error P SECRET uuid now L req payload msg
    hauth hp hv
  rcases validate_cases payload with ⟨h1, hv⟩ | ⟨h1, h2, hv⟩ | ⟨h1, h2, h3, hv⟩ |
    ⟨h1, h2, h3, h4, hv⟩ | ⟨h1, h2, h3, h4, payer, amount, ts, hv⟩
  · have hr := herr _ hv
    refine ⟨fun _ => by rw [hr], fun _ => by rw [hr], ?_, ?_, ?_⟩ <;>
    · rw [hr]
      constructor
      · intro h; exact absurd (response_error_inj h) (by decide)
      · intro h; simp [h1] at h
  · have hr := herr _ hv
    refine ⟨fun h => by simp [h1] at h, fun h => by simp [hnonobj h] at h1, ?_, ?_, ?_⟩
    · rw [hr]; exact ⟨fun _ => ⟨h1, h2⟩, fun _ => rfl⟩
    · rw [hr]
      constructor
      · intro h; exact absurd (response_error_inj h) (by decide)
      · intro h; simp [h2] at h
    · rw [hr]
      constructor
      · intro h; exact absurd (response_error_inj h) (by decide)
      · intro h; simp [h2] at h
  · have hr := herr _ hv
    refine ⟨fun h => by simp [h1] at h, fun h => by simp [hnonobj h] at h1, ?_, ?_, ?_⟩
    · rw [hr]
      constructor
      · intro h; exact absurd (response_error_inj h) (by decide)
      · intro h; simp [h2] at h
    · rw [hr]; exact ⟨fun _ => ⟨h1, h2, h3⟩, fun _ => rfl⟩
    · rw [hr]
      constructor
      · intro h; exact absurd (response_error_inj h) (by decide)
      · intro h; simp [h3] at h
  · have hr := herr _ hv
    refine ⟨fun h => by simp [h1] at h, fun h => by simp [hnonobj h] at h1, ?_, ?_, ?_⟩
    · rw [hr]
      constructor
      · intro h; exact absurd (response_error_inj h) (by decide)
      · intro h; simp [h2] at h
    · rw [hr]
      constructor
      · intro h; exact absurd (response_error_inj h) (by decide)
      · intro h; simp [h3] at h
    · rw [hr]; exact ⟨fun _ => ⟨h1, h2, h3, h4⟩, fun _ => rfl⟩
  · have hr : (mcPay P SECRET uuid now L req).res = ⟨200, okBody⟩ := by
      rw [mcPay_of_authenticated P SECRET uuid now L req hauth,
        ingest_of_valid P uuid now L req.body payload payer ts amount hp hv]
    refine ⟨fun h => by simp [h1] at h, fun h => by simp [hnonobj h] at h1, ?_, ?_, ?_⟩
    · rw [hr]
      exact ⟨fun h => absurd h response_ok_ne_error, fun h => by simp [h2] at h⟩
    · rw [hr]
      exact ⟨fun h => absurd h response_ok_ne_error, fun h => by simp [h3] at h⟩
    · rw [hr]
      exact ⟨fun h => absurd h response_ok_ne_error, fun h => by simp [h4] at h⟩

/-- The signed body `{"type":"x"}`: payer, amount and ts are missing, and the
error is the one of the type check. -/
theorem C14_first_failing_check_witness :
    (mcPay (tablePlatform typeXBody typeXDigest typeXPayload) defaultSecret "id-1"
        "2024-01-01T00:00:01.000Z" [] ⟨some typeXDigest, typeXBody⟩).res =
      ⟨400, errorBody "type must be pay_received"⟩ :=
  (C14_first_failing_check (tablePlatform typeXBody typeXDigest typeXPayload) defaultSecret
    "id-1" "2024-01-01T00:00:01.000Z" [] ⟨some typeXDigest, typeXBody⟩ typeXPayload
    (tablePlatform_authenticated _ _ _ ⟨by decide, by decide⟩)
    (tablePlatform_jsonParse _ _ _)).1 (by decide)

theorem mcPay_of_valid (P : Platform) (SECRET uuid now : String) (L : List Entry)
    (req : Request) (payload : JsVal) (payer ts : String) (amount : JsNumber)
    (hauth : Authenticated P SECRET req) (hp : P.jsonParse req.body = some payload)
    (hv : validate payload = .ok (payer, amount, ts)) :
    mcPay P SECRET uuid now L req =
      ⟨⟨200, okBody⟩,
        insert { id := uuid, payer := payer, amount := amount,
                 raw := orEmpty (payload.prop "raw"), ts := ts, receivedAt := now } L,
        [.createHmac, .timingSafeEqual, .jsonParse]⟩ := by
  rw [mcPay_of_authenticated P SECRET uuid now L req hauth,
    ingest_of_valid P uuid now L req.body payload payer ts amount hp hv]

/-- Claim C15 as stated fails. The signed body
`{"type":"pay_received","payer":"Bob","amount":1e999,"ts":"2024-01-01T00:00:00Z"}`
has the right type and payer and an amount that decodes to `Infinity`, which is
not finite; the request is answered 200 and the infinite amount is stored. -/
theorem C15_counterexample :
    Authenticated (tablePlatform infiniteBody infiniteDigest infinitePayload) defaultSecret
        ⟨some infiniteDigest, infiniteBody⟩ ∧
      (tablePlatform infiniteBody infiniteDigest infinitePayload).jsonParse infiniteBody =
        some infinitePayload ∧
      typeOk infinitePayload = true ∧ payerOk infinitePayload = true ∧
      infinitePayload.prop "amount" = some (.num (.inf false)) ∧
      (JsNumber.inf false).isFinite = false ∧
      (mcPay (tablePlatform infiniteBody infiniteDigest infinitePayload) defaultSecret "id-1"
        "2024-01-01T00:00:01.000Z" [] ⟨some infiniteDigest, infiniteBody⟩).res =
        ⟨200, okBody⟩ ∧
      (mcPay (tablePlatform infiniteBody infiniteDigest infinitePayload) defaultSecret "id-1"
        "2024-01-01T00:00:01.000Z" [] ⟨some infiniteDigest, infiniteBody⟩).payments.map
        Entry.amount = [JsNumber.inf false] := by
  have hauth := tablePlatform_authenticated infiniteBody infiniteDigest infinitePayload
    ⟨by decide, by decide⟩
  have hp := tablePlatform_jsonParse infiniteBody infiniteDigest infinitePayload
  have hv : validate infinitePayload = .ok ("Bob", .inf false, "2024-01-01T00:00:00Z") := by
    apply validate_of_fields <;> first | rfl | decide
  have hrun := mcPay_of_valid _ defaultSecret "id-1" "2024-01-01T00:00:01.000Z" [] _ _ _ _ _
    hauth hp hv
  refine ⟨hauth, hp, by decide, by decide, rfl, rfl, ?_, ?_⟩
  · rw [hrun]
  · rw [hrun]; rfl

theorem amountOk_eq_false_iff (payload : JsVal) :
    amountOk payload = false ↔
      ∀ n, payload.prop "amount" = some (.num n) → n = JsNumber.nan := by
  unfold amountOk asNumber
  split
  · rename_i n hn
    split at hn
    · rename_i m hm
      simp only [Option.some.injEq] at hn
      subst hn
      rw [hm]
      constructor
      · intro h k hk
        simp only [Option.some.injEq, JsVal.num.injEq] at hk
        subst hk
        cases m <;> simp_all [JsNumber.isNaN]
      · intro h
        rw [h m rfl]
        rfl
    · cases hn
  · rename_i hn
    split at hn
    · cases hn
    · rename_i hne
      constructor
      · intro _ k hk
        exact absurd hk (hne k)
      · intro _; rfl

/-- Claim C15, amended. For a request that passes the signature check and whose
decoded payload has the right type and payer: when the amount is not a number or
is NaN the response is 400 `amount must be number` and the ledger is unchanged;
an infinite amount passes the amount check; and no reachable ledger holds an
entry whose amount is NaN. -/
theorem C15_amount_check (P : Platform) (SECRET uuid now : String) (L : List Entry)
    (req : Request) (payload : JsVal) (hauth : Authenticated P SECRET req)
    (hp : P.jsonParse req.body = some payload)
    (htype : typeOk payload = true) (hpayer : payerOk payload = true) :
    ((∀ n, payload.prop "amount" = some (.num n) → n = JsNumber.nan) →
      (mcPay P SECRET uuid now L req).res = ⟨400, errorBody "amount must be number"⟩ ∧
      (mcPay P SECRET uuid now L req).payments = L) ∧
    (∀ neg, payload.prop "amount" = some (.num (.inf neg)) → amountOk payload = true) ∧
    (∀ neg, payload.prop "amount" = some (.num (.inf neg)) → tsOk payload = true →
      (mcPay P SECRET uuid now L req).res = ⟨200, okBody⟩ ∧
      ∃ e, e.amount = .inf neg ∧
        (mcPay P SECRET uuid now L req).payments = (e :: L).take 200) ∧
    (∀ L', Reachable P SECRET L' → ∀ e ∈ L', e.amount ≠ JsNumber.nan) := by
  have hinf : ∀ neg, payload.prop "amount" = some (.num (.inf neg)) →
      amountOk payload = true := by
    intro neg h
    simp [amountOk, asNumber, h, JsNumber.isNaN]
  refine ⟨fun hbad => ?_, hinf, fun neg hamt hts => ?_,
    fun L' hL' => reachable_amount_ne_nan P SECRET L' hL'⟩
  · have hbad2 := (amountOk_eq_false_iff payload).mpr hbad
    rcases validate_cases payload with ⟨h1, _⟩ | ⟨_, h2, _⟩ | ⟨_, _, _, hv⟩ |
      ⟨_, _, h3, _⟩ | ⟨_, _, h3, _⟩
    · rw [htype] at h1; cases h1
    · rw [hpayer] at h2; cases h2
    · rw [mcPay_res_of_validate_error P SECRET uuid now L req payload _ hauth hp hv]
      exact ⟨rfl, rfl⟩
    · rw [hbad2] at h3; cases h3
    · rw [hbad2] at h3; cases h3
  · have ha := hinf neg hamt
    rcases validate_cases payload with ⟨h1, _⟩ | ⟨_, h2, _⟩ | ⟨_, _, h3, _⟩ |
      ⟨_, _, _, h4, _⟩ | ⟨_, _, _, _, payer, amount, ts, hv⟩
    · rw [htype] at h1; cases h1
    · rw [hpayer] at h2; cases h2
    · rw [ha] at h3; cases h3
    · rw [hts] at h4; cases h4
    · have hamount := (validate_ok payload payer ts amount hv).2.2.2.1
      rw [hamt] at hamount
      simp only [Option.some.injEq, JsVal.num.injEq] at hamount
      rw [mcPay_of_valid P SECRET uuid now L req payload payer ts amount hauth hp hv]
      exact ⟨rfl, _, hamount.symm, rfl⟩

/-- The signed body `{"type":"pay_received","payer":"Bob","amount":1e999,...}`:
the infinite amount passes the amount check. -/
theorem C15_amount_check_witness :
    amountOk infinitePayload = true :=
  (C15_amount_check (tablePlatform infiniteBody infiniteDigest infinitePayload) defaultSecret
    "id-1" "2024-01-01T00:00:01.000Z" [] ⟨some infiniteDigest, infiniteBody⟩ infinitePayload
    (tablePlatform_authenticated _ _ _ ⟨by decide, by decide⟩)
    (tablePlatform_jsonParse _ _ _) (by decide) (by decide)).2.1 false rfl

/-- Claim C16 as stated fails. The signed body
`{"type":"pay_received","payer":"Bob","amount":10,"ts":"2024-01-01T00:00:00Z","raw":5}`
is accepted, its `raw` is the number `5`, and the entry stored has `raw` equal to
that number, which is not text. -/
theorem C16_counterexample :
    Authenticated (tablePlatform rawFiveBody rawFiveDigest rawFivePayload) defaultSecret
        ⟨some rawFiveDigest, rawFiveBody⟩ ∧
      (tablePlatform rawFiveBody rawFiveDigest rawFivePayload).jsonParse rawFiveBody =
        some rawFivePayload ∧
      rawFivePayload.prop "raw" = some (.num five) ∧
      (mcPay (tablePlatform rawFiveBody rawFiveDigest rawFivePayload) defaultSecret "id-1"
        "2024-01-01T00:00:01.000Z" [] ⟨some rawFiveDigest, rawFiveBody⟩).res =
        ⟨200, okBody⟩ ∧
      (mcPay (tablePlatform rawFiveBody rawFiveDigest rawFivePayload) defaultSecret "id-1"
        "2024-01-01T00:00:01.000Z" [] ⟨some rawFiveDigest, rawFiveBody⟩).payments.map
        (fun e => e.raw.isText) = [false] := by
  have hauth := tablePlatform_authenticated rawFiveBody rawFiveDigest rawFivePayload
    ⟨by decide, by decide⟩
  have hp := tablePlatform_jsonParse rawFiveBody rawFiveDigest rawFivePayload
  have hv : validate rawFivePayload = .ok ("Bob", ten, "2024-01-01T00:00:00Z") := by
    apply validate_of_fields <;> first | rfl | decide
  have hrun := mcPay_of_valid _ defaultSecret "id-1" "2024-01-01T00:00:01.000Z" [] _ _ _ _ _
    hauth hp hv
  have hr : rawFivePayload.prop "raw" = some (.num five) := rfl
  have ht : (JsVal.num five).truthy = true := by decide!
  refine ⟨hauth, hp, hr, ?_, ?_⟩
  · rw [hrun]
  · rw [hrun]
    simp [insert, splice, unshift, hr, orEmpty, ht, JsVal.isText]

theorem orEmpty_isText (v : Option JsVal) :
    (orEmpty v).isText = true ↔ ∀ w, v = some w → (w.isText = true ∨ w.truthy = false) := by
  cases v with
  | none => simp [orEmpty, JsVal.isText]
  | some w =>
    simp only [orEmpty, Option.some.injEq, forall_eq']
    cases ht : w.truthy with
    | true => simp
    | false => simp [JsVal.isText]

/-- Claim C16, amended. For every accepted payload the entry stored has `raw`
equal to the empty string when `raw` is absent or falsy and to the payload's text
when `raw` is text; a `raw` that is present, truthy and not text is stored as it
is; so the stored `raw` is text exactly when the payload's `raw` is absent, text
or falsy. -/
theorem C16_stored_raw (P : Platform) (SECRET uuid now : String) (L : List Entry)
    (req : Request) (payload : JsVal) (payer ts : String) (amount : JsNumber)
    (hauth : Authenticated P SECRET req) (hp : P.jsonParse req.body = some payload)
    (hv : validate payload = .ok (payer, amount, ts)) :
    ∃ e : Entry, (mcPay P SECRET uuid now L req).payments = (e :: L).take 200 ∧
      (payload.prop "raw" = none → e.raw = .str "") ∧
      (∀ s, payload.prop "raw" = some (.str s) → e.raw = .str s) ∧
      (∀ v, payload.prop "raw" = some v → v.truthy = false → e.raw = .str "") ∧
      (∀ v, payload.prop "raw" = some v → v.isText = false → v.truthy = true →
        e.raw = v ∧ e.raw.isText = false) ∧
      (e.raw.isText = true ↔
        ∀ v, payload.prop "raw" = some v → (v.isText = true ∨ v.truthy = false)) := by
  refine ⟨{ id := uuid, payer := payer, amount := amount,
            raw := orEmpty (payload.prop "raw"), ts := ts, receivedAt := now },
    by rw [mcPay_of_valid P SECRET uuid now L req payload payer ts amount hauth hp hv]; rfl,
    ?_, ?_, ?_, ?_, orEmpty_isText _⟩
  · intro h
    simp [h, orEmpty]
  · intro s h
    by_cases hs : s = ""
    · simp [h, orEmpty, JsVal.truthy, hs]
    · simp [h, orEmpty, JsVal.truthy, hs]
  · intro v h ht
    simp [h, orEmpty, ht]
  · intro v h hnt ht
    simp [h, orEmpty, ht, hnt]

/-- The end-to-end example request, whose payload has no `raw`. -/
theorem C16_stored_raw_witness :
    ∃ e : Entry, (mcPay samplePlatform defaultSecret "id-1" "2024-01-01T00:00:01.000Z" []
        bobRequest).payments = (e :: []).take 200 ∧ e.raw = .str "" := by
  obtain ⟨e, h1, h2, _⟩ := C16_stored_raw samplePlatform defaultSecret "id-1"
    "2024-01-01T00:00:01.000Z" [] bobRequest bobPayload "Bob" "2024-01-01T00:00:00Z" ten
    bobRequest_authenticated (by simp [samplePlatform, bobRequest])
    (by apply validate_of_fields <;> first | rfl | decide)
  exact ⟨e, h1, h2 rfl⟩

/-- Claim C17. Every entry of a reachable ledger was built from the decoded
payload of a request that passed the signature check and the four field checks:
its payer and its ts are non-empty texts and its amount is a number other than
NaN. -/
theorem C17_entries_passed_validation (P : Platform) (SECRET : String) (L : List Entry)
    (h : Reachable P SECRET L) :
    ∀ e ∈ L, e.payer ≠ "" ∧ e.ts ≠ "" ∧ e.amount ≠ JsNumber.nan ∧
      ∃ req payload, Authenticated P SECRET req ∧ P.jsonParse req.body = some payload ∧
        validate payload = .ok (e.payer, e.amount, e.ts) ∧
        e.raw = orEmpty (payload.prop "raw") := by
  induction h with
  | start => intro e he; cases he
  | @post payments uuid now req _ ih =>
    rcases mcPay_cases P SECRET uuid now payments req with ⟨hsame, _⟩ | ⟨hauth, payload, payer,
      amount, ts, hp, hv, hrun⟩
    · rw [hsame]; exact ih
    · rw [hrun]
      intro x hx
      rcases mem_insert hx with hxe | hxL
      · obtain ⟨_, _, h3, _, h5, _, h7⟩ := validate_ok payload payer ts amount hv
        rw [hxe]
        exact ⟨h3, h7, h5, req, payload, hauth, hp, hv, rfl⟩
      · exact ih x hxL
  | @balance payments q _ ih =>
    rw [getBalance_payments]; exact ih

theorem bobRequest_run :
    mcPay samplePlatform defaultSecret "id-1" "2024-01-01T00:00:01.000Z" [] bobRequest =
      ⟨⟨200, okBody⟩, [bobEntry], [.createHmac, .timingSafeEqual, .jsonParse]⟩ := by
  rw [mcPay_of_valid samplePlatform defaultSecret "id-1" "2024-01-01T00:00:01.000Z" []
    bobRequest bobPayload "Bob" "2024-01-01T00:00:00Z" ten bobRequest_authenticated
    (by simp [samplePlatform, bobRequest])
    (by apply validate_of_fields <;> first | rfl | decide)]
  rfl

/-- The entry of the ledger left by the end-to-end example request. -/
theorem C17_entries_passed_validation_witness :
    bobEntry.payer ≠ "" ∧ bobEntry.ts ≠ "" ∧ bobEntry.amount ≠ JsNumber.nan :=
  have h := C17_entries_passed_validation samplePlatform defaultSecret
    (mcPay samplePlatform defaultSecret "id-1" "2024-01-01T00:00:01.000Z" []
      bobRequest).payments
    (Reachable.post "id-1" "2024-01-01T00:00:01.000Z" bobRequest Reachable.start) bobEntry
    (by rw [bobRequest_run]; exact List.mem_singleton.mpr rfl)
  ⟨h.1, h.2.1, h.2.2.1⟩

/-! ## Payment followed by a balance query -/

namespace JsNumber

theorem lt_pow_bitLog_succ (fuel : Nat) :
    ∀ n, n < 2 ^ (fuel + 1) → n < 2 ^ (bitLog fuel n + 1) := by
  induction fuel with
  | zero => intro n hn; simpa [bitLog] using hn
  | succ k ih =>
    intro n hn
    unfold bitLog
    split
    · rename_i h2
      simpa using h2
    · have hhalf : n / 2 < 2 ^ (k + 1) := by
        rw [Nat.pow_succ] at hn
        omega
      have := ih (n / 2) hhalf
      rw [Nat.pow_succ]
      omega

/-- The value `bitLog m m` is the position of the leading bit of `m`. -/
theorem bitLog_spec (m : Nat) (hm : 1 ≤ m) :
    2 ^ bitLog m m ≤ m ∧ m < 2 ^ (bitLog m m + 1) :=
  ⟨pow_bitLog_le m m hm,
    lt_pow_bitLog_succ m m (Nat.lt_trans (Nat.lt_two_pow m) (Nat.pow_lt_pow_right (by decide)
      (Nat.lt_succ_self m)))⟩

/-- The leading bit is at position `b` exactly when `2^b ≤ m < 2^(b+1)`. -/
theorem bitLog_eq (m b : Nat) (h1 : 2 ^ b ≤ m) (h2 : m < 2 ^ (b + 1)) : bitLog m m = b := by
  have hm : 1 ≤ m := Nat.le_trans (Nat.two_pow_pos b) h1
  obtain ⟨g1, g2⟩ := bitLog_spec m hm
  generalize bitLog m m = c at g1 g2
  by_contra hne
  rcases Nat.lt_or_gt_of_ne hne with hlt | hgt
  · have : 2 ^ (c + 1) ≤ 2 ^ b := Nat.pow_le_pow_right (by decide) hlt
    exact absurd (Nat.lt_of_lt_of_le g2 (Nat.le_trans this h1)) (Nat.lt_irrefl _)
  · have : 2 ^ (b + 1) ≤ 2 ^ c := Nat.pow_le_pow_right (by decide) hgt
    exact absurd (Nat.lt_of_lt_of_le h2 (Nat.le_trans this g1)) (Nat.lt_irrefl _)

theorem ofMag_zero (neg : Bool) : ofMag neg 0 = fin neg 0 0 := by
  unfold ofMag
  rw [dif_pos (by decide)]
  rfl

/-- Rounding is exact on a magnitude `q * 2^sh` with a 53-bit `q`. -/
theorem ofMag_exact (neg : Bool) (m q sh : Nat) (hmq : m = q * 2 ^ sh)
    (hq_lo : 4503599627370496 ≤ q) (hq_hi : q < 2 * 4503599627370496)
    (hexpo : sh + 1 < 2047) :
    ∃ e f, ofMag neg m = fin neg e f ∧ mag e f = m := by
  have h52 : (4503599627370496 : Nat) = 2 ^ 52 := by norm_num
  have hshpos : 0 < 2 ^ sh := Nat.two_pow_pos _
  have hb1 : 2 ^ (52 + sh) ≤ m := by
    rw [Nat.pow_add, hmq, ← h52]
    exact Nat.mul_le_mul_right _ hq_lo
  have hb2 : m < 2 ^ (52 + sh + 1) := by
    have : 52 + sh + 1 = 1 + 52 + sh := by omega
    rw [this, Nat.pow_add, Nat.pow_add, ← h52, hmq]
    exact Nat.mul_lt_mul_of_pos_right (by omega) hshpos
  have hb := bitLog_eq m (52 + sh) hb1 hb2
  have hbig : ¬ m < 4503599627370496 := by
    have : q ≤ m := by
      rw [hmq]
      exact Nat.le_mul_of_pos_right _ hshpos
    omega
  have hshift : 52 + sh - 52 = sh := by omega
  have hdiv : m / 2 ^ sh = q := by
    rw [hmq]
    exact Nat.mul_div_cancel q hshpos
  have hmod : m % 2 ^ sh = 0 := by
    rw [hmq]
    exact Nat.mul_mod_left _ _
  have hround : roundShift m sh = q := by
    unfold roundShift
    simp only [hdiv, hmod, Nat.mul_zero]
    have h1 : ¬ (2 ^ sh < 0 ∨ (0 = 2 ^ sh ∧ q % 2 = 1)) := by
      intro h
      rcases h with h | ⟨h, _⟩
      · exact absurd h (Nat.not_lt_zero _)
      · exact absurd h.symm (Nat.ne_of_gt hshpos)
    simp only [h1, if_false]
  have hqdiv : q / 4503599627370496 = 1 := by
    apply Nat.div_eq_of_lt_le
    · omega
    · omega
  have hqmod : q % 4503599627370496 = q - 4503599627370496 := by
    rw [Nat.mod_eq_sub_mod hq_lo]
    apply Nat.mod_eq_of_lt
    omega
  unfold ofMag
  rw [dif_neg hbig]
  simp only [hb, hshift, hround, hqdiv]
  rw [dif_pos hexpo]
  refine ⟨_, _, rfl, ?_⟩
  unfold mag
  have hne : ¬ (sh + 1 = 0) := by omega
  simp only [hne, if_false, hqmod, Nat.add_sub_cancel]
  rw [Nat.add_sub_cancel' hq_lo]
  exact hmq.symm

/-- Rounding is exact on the integers from `1` to `2^53 - 1`: the binary64 value
of `n * 2^1074` units has magnitude `n * 2^1074`. -/
theorem ofMag_nat_exact (neg : Bool) (n : Nat) (h1 : 1 ≤ n) (h53 : n < 2 * 4503599627370496) :
    ∃ e f, ofMag neg (n * 2 ^ 1074) = fin neg e f ∧ mag e f = n * 2 ^ 1074 := by
  have h52 : (4503599627370496 : Nat) = 2 ^ 52 := by norm_num
  obtain ⟨g1, g2⟩ := bitLog_spec n h1
  generalize bitLog n n = k at g1 g2
  have hk : k ≤ 52 := by
    by_contra hgt
    have : 2 ^ 53 ≤ 2 ^ k := Nat.pow_le_pow_right (by decide) (by omega)
    have h53' : (2 : Nat) ^ 53 = 2 * 4503599627370496 := by norm_num
    omega
  have hpk : 0 < 2 ^ (52 - k) := Nat.two_pow_pos _
  apply ofMag_exact neg (n * 2 ^ 1074) (n * 2 ^ (52 - k)) (1022 + k)
  · rw [Nat.mul_assoc, ← Nat.pow_add]
    congr 2
    omega
  · have : 2 ^ k * 2 ^ (52 - k) = 4503599627370496 := by
      rw [← Nat.pow_add, h52]
      congr 1
      omega
    rw [← this]
    exact Nat.mul_le_mul_right _ g1
  · have : 2 ^ (k + 1) * 2 ^ (52 - k) = 2 * 4503599627370496 := by
      rw [← Nat.pow_add, h52, ← Nat.pow_succ']
      congr 1
      omega
    rw [← this]
    exact Nat.mul_lt_mul_of_pos_right g2 hpk
  · omega

theorem mag_one : mag 1023 0 = 2 ^ 1074 := by
  have h52 : (4503599627370496 : Nat) = 2 ^ 52 := by norm_num
  have e1 : ((1023 : Fin 2047).val - 1) = 1022 := rfl
  have e2 : (0 : Fin 4503599627370496).val = 0 := rfl
  unfold mag
  rw [if_neg (by decide), e1, e2, Nat.add_zero, h52, ← Nat.pow_add]

/-- Adding `1` to the integer `n` gives the integer `n + 1`, below `2^53`. -/
theorem ofMag_nat_add_one (n : Nat) (h53 : n + 1 < 2 * 4503599627370496) :
    add (ofMag false (n * 2 ^ 1074)) (fin false 1023 0) = ofMag false ((n + 1) * 2 ^ 1074) := by
  have hU0 : (2 : Nat) ^ 1074 ≠ 0 := Nat.ne_of_gt (Nat.two_pow_pos _)
  have hsum : n * 2 ^ 1074 + 2 ^ 1074 = (n + 1) * 2 ^ 1074 := by
    rw [Nat.add_mul, Nat.one_mul]
  by_cases hn : n = 0
  · subst hn
    rw [Nat.zero_mul, ofMag_zero]
    have hm0 : mag 0 0 = 0 := rfl
    simp only [add, hm0, mag_one, hU0, and_false, if_false, if_true, Nat.zero_add,
      Nat.one_mul]
  · obtain ⟨e, f, hrep, hmag⟩ := ofMag_nat_exact false n (by omega) (by omega)
    rw [hrep]
    simp only [add, hmag, mag_one, hU0, and_false, if_false, if_true, hsum]

end JsNumber


theorem JsNumber.add_same_sign (s : Bool) (e1 e2 : Fin 2047) (f1 f2 : Fin 4503599627370496)
    (h : ¬ (JsNumber.mag e1 f1 = 0 ∧ JsNumber.mag e2 f2 = 0)) :
    JsNumber.add (.fin s e1 f1) (.fin s e2 f2) =
      JsNumber.ofMag s (JsNumber.mag e1 f1 + JsNumber.mag e2 f2) := by
  simp only [JsNumber.add, h, if_false, if_true]

/-- Adding two non-negative integers whose sum is below `2^53` is exact. -/
theorem JsNumber.ofMag_nat_add (a b : Nat) (h53 : a + b < 2 * 4503599627370496) :
    JsNumber.add (JsNumber.ofMag false (a * 2 ^ 1074)) (JsNumber.ofMag false (b * 2 ^ 1074)) =
      JsNumber.ofMag false ((a + b) * 2 ^ 1074) := by
  have hU0 : (2 : Nat) ^ 1074 ≠ 0 := Nat.ne_of_gt (Nat.two_pow_pos _)
  have hm0 : JsNumber.mag 0 0 = 0 := rfl
  have hmul : ∀ n : Nat, n ≠ 0 → n * 2 ^ 1074 ≠ 0 := fun n hn => Nat.mul_ne_zero hn hU0
  have hrepr : ∀ n : Nat, n < 2 * 4503599627370496 →
      ∃ e f, JsNumber.ofMag false (n * 2 ^ 1074) = .fin false e f ∧
        JsNumber.mag e f = n * 2 ^ 1074 := by
    intro n hn
    by_cases h0 : n = 0
    · subst h0
      exact ⟨0, 0, by rw [Nat.zero_mul, JsNumber.ofMag_zero], by rw [Nat.zero_mul]; rfl⟩
    · exact JsNumber.ofMag_nat_exact false n (by omega) hn
  obtain ⟨e1, f1, hr1, hg1⟩ := hrepr a (by omega)
  obtain ⟨e2, f2, hr2, hg2⟩ := hrepr b (by omega)
  by_cases h0 : a = 0 ∧ b = 0
  · obtain ⟨ha, hb⟩ := h0
    subst ha hb
    rw [Nat.zero_mul, JsNumber.ofMag_zero]
    rfl
  · rw [hr1, hr2, JsNumber.add_same_sign false e1 e2 f1 f2, hg1, hg2, Nat.add_mul]
    rw [hg1, hg2]
    intro ⟨h1, h2⟩
    apply h0
    constructor
    · by_contra hne
      exact hmul a hne h1
    · by_contra hne
      exact hmul b hne h2

theorem JsNumber.ofInt_natCast (n : Nat) :
    JsNumber.ofInt (n : Int) = JsNumber.ofMag false (n * 2 ^ 1074) := by
  unfold JsNumber.ofInt
  have h1 : decide ((n : Int) < 0) = false := by
    rw [decide_eq_false_iff_not]
    omega
  rw [h1, Int.natAbs_ofNat]

/-- Adding up non-negative integers whose total is below `2^53` is exact. -/
theorem foldl_add_nat (ks : List Nat) :
    ∀ s : Nat, s + ks.sum < 2 * 4503599627370496 →
      (ks.map (fun (k : Nat) => JsNumber.ofInt (k : Int))).foldl JsNumber.add
          (JsNumber.ofMag false (s * 2 ^ 1074)) =
        JsNumber.ofMag false ((s + ks.sum) * 2 ^ 1074) := by
  induction ks with
  | nil => intro s _; simp
  | cons k ks ih =>
    intro s hs
    simp only [List.sum_cons] at hs
    simp only [List.map_cons, List.foldl_cons, List.sum_cons]
    rw [JsNumber.ofInt_natCast, JsNumber.ofMag_nat_add s k (by omega), ih (s + k) (by omega),
      Nat.add_assoc]



theorem JsNumber.ofMag_ne_nan (neg : Bool) (m : Nat) : JsNumber.ofMag neg m ≠ JsNumber.nan := by
  unfold JsNumber.ofMag
  split
  · intro h; cases h
  · simp only
    split
    · intro h; cases h
    · intro h; cases h

theorem JsNumber.ofInt_ne_nan (z : Int) : JsNumber.ofInt z ≠ JsNumber.nan :=
  JsNumber.ofMag_ne_nan _ _

theorem insert_of_length_lt (e : Entry) (L : List Entry) (h : L.length < 200) :
    insert e L = e :: L := by
  rw [insert_eq]
  apply List.take_of_length_le
  simp only [List.length_cons]
  omega

theorem foldl_add_ne_negZero (l : List Entry) :
    ∀ s : JsNumber, s ≠ JsNumber.negZero →
      l.foldl (fun sum p => JsNumber.add sum (amountOrZero p.amount)) s ≠ JsNumber.negZero := by
  induction l with
  | nil => intro s hs; exact hs
  | cons e es ih =>
    intro s hs
    simp only [List.foldl_cons]
    exact ih _ (JsNumber.add_ne_negZero s _ hs)

theorem balanceOf_ne_negZero (P : Platform) (L : List Entry) (user : String) :
    balanceOf P L user ≠ JsNumber.negZero := by
  unfold balanceOf
  apply foldl_add_ne_negZero
  simp [JsNumber.zero, JsNumber.negZero]

theorem balanceOf_cons_match (P : Platform) (e : Entry) (L : List Entry) (user : String)
    (h : P.toLowerCase e.payer = P.toLowerCase user) :
    balanceOf P (e :: L) user =
      (entriesOf P L user).foldl (fun sum p => JsNumber.add sum (amountOrZero p.amount))
        (JsNumber.add JsNumber.zero (amountOrZero e.amount)) := by
  unfold balanceOf entriesOf
  rw [List.filter_cons]
  simp only [h, decide_True, if_true, List.foldl_cons]

theorem balanceOf_cons_skip (P : Platform) (e : Entry) (L : List Entry) (user : String)
    (h : P.toLowerCase e.payer ≠ P.toLowerCase user) :
    balanceOf P (e :: L) user = balanceOf P L user := by
  unfold balanceOf
  rw [List.filter_cons]
  simp only [h, decide_False, Bool.false_eq_true, if_false]

theorem bigRequest_authenticated : Authenticated bigPlatform defaultSecret bigRequest :=
  tablePlatform_authenticated bigBody bigDigest bigPayload ⟨by decide, by decide⟩

theorem bigPayload_valid :
    validate bigPayload = .ok ("Bob", twoPow53, "2024-01-01T00:00:00Z") := by
  apply validate_of_fields <;> first | rfl | decide

theorem ofInt_twoPow53 : JsNumber.ofInt 9007199254740992 = twoPow53 := by decide!

theorem twoOnes_sum :
    JsNumber.add (JsNumber.add JsNumber.zero (amountOrZero one)) (amountOrZero one) = two := by
  decide!

theorem big_then_twoOnes_sum :
    JsNumber.add (JsNumber.add (JsNumber.add JsNumber.zero (amountOrZero twoPow53))
      (amountOrZero one)) (amountOrZero one) = twoPow53 := by
  decide!

theorem two_add_twoPow53 : JsNumber.add two twoPow53 = twoPow53PlusTwo := by decide!

/-- Claim C18 as stated fails. The ledger holds two payments of amount `1` by
`Bob`, so Bob's balance `b` is `2`; a correctly signed payment by `Bob` of the
integer amount `a = 9007199254740992` is answered 200, and the following
`GET /balance?user=Bob` returns `9007199254740992`, whereas `b + a` is
`9007199254740994`: the new amount is added first and each `+ 1` is then rounded
away. -/
theorem C18_counterexample :
    twoOnes.length < 200 ∧ jsTrim "Bob" = "Bob" ∧
      Authenticated bigPlatform defaultSecret bigRequest ∧
      bigPlatform.jsonParse bigRequest.body = some bigPayload ∧
      bigPayload.prop "amount" = some (.num (JsNumber.ofInt 9007199254740992)) ∧
      (mcPay bigPlatform defaultSecret "id-3" "2024-01-01T00:00:01.000Z" twoOnes
        bigRequest).res = ⟨200, okBody⟩ ∧
      balanceOf bigPlatform twoOnes "Bob" = two ∧
      (getBalance bigPlatform (mcPay bigPlatform defaultSecret "id-3"
        "2024-01-01T00:00:01.000Z" twoOnes bigRequest).payments (.str "Bob")).res =
        ⟨200, .obj [("ok", .bool true), ("user", .str "Bob"), ("balance", .num twoPow53)]⟩ ∧
      JsNumber.add two (JsNumber.ofInt 9007199254740992) = twoPow53PlusTwo ∧
      twoPow53 ≠ twoPow53PlusTwo := by
  have hp : bigPlatform.jsonParse bigRequest.body = some bigPayload :=
    tablePlatform_jsonParse bigBody bigDigest bigPayload
  have hrun := mcPay_of_valid bigPlatform defaultSecret "id-3" "2024-01-01T00:00:01.000Z"
    twoOnes bigRequest bigPayload "Bob" "2024-01-01T00:00:00Z" twoPow53
    bigRequest_authenticated hp bigPayload_valid
  have htrim : jsTrim "Bob" = "Bob" := by decide
  refine ⟨by decide, htrim, bigRequest_authenticated, hp, by rw [ofInt_twoPow53]; rfl,
    by rw [hrun], ?_, ?_, by rw [ofInt_twoPow53]; exact two_add_twoPow53, by decide⟩
  · simp only [balanceOf, twoOnes, List.filter, oneBob, decide_True, List.foldl_cons,
      List.foldl_nil]
    exact twoOnes_sum
  · rw [hrun, getBalance_of_ne _ _ "Bob" (by decide), htrim]
    simp only [balanceOf, twoOnes, insert, splice, unshift, List.take, List.filter, oneBob,
      decide_True, List.foldl_cons, List.foldl_nil]
    rw [big_then_twoOnes_sum]

/-- Claim C18, amended. On a reachable ledger `L` with fewer than 200 entries, a
correctly signed payment `{type:"pay_received", payer, amount, ts}` with `payer`
non-empty and without surrounding white space, `amount` an integer and `ts`
non-empty is answered 200 `{ok:true}`, and a following `GET /balance?user=payer`
is answered 200 with `user` equal to `payer` and `balance` equal to the sum,
starting from `0 + amount`, of the amounts of the payer's entries on `L`; this is
`b + amount`, `b` being the payer's balance on `L`, when `L` holds no entry of
the payer, and also when `amount` and the amounts of the payer's entries on `L`
are non-negative integers with a total below `2^53`; on the empty ledger with
amount `10` the balance is `10`. -/
theorem C18_post_then_balance (P : Platform) (SECRET uuid now : String) (L : List Entry)
    (req : Request) (payload : JsVal) (payer ts : String) (z : Int)
    (hL : Reachable P SECRET L) (hlen : L.length < 200)
    (hauth : Authenticated P SECRET req) (hp : P.jsonParse req.body = some payload)
    (htype : payload.prop "type" = some (.str "pay_received"))
    (hpayer : payload.prop "payer" = some (.str payer)) (hpne : payer ≠ "")
    (htrim : jsTrim payer = payer)
    (hamount : payload.prop "amount" = some (.num (JsNumber.ofInt z)))
    (hts : payload.prop "ts" = some (.str ts)) (htne : ts ≠ "") :
    (mcPay P SECRET uuid now L req).res = ⟨200, okBody⟩ ∧
    (getBalance P (mcPay P SECRET uuid now L req).payments (.str payer)).res =
      ⟨200, .obj [("ok", .bool true), ("user", .str payer),
        ("balance", .num ((entriesOf P L payer).foldl
          (fun sum p => JsNumber.add sum p.amount)
          (JsNumber.add JsNumber.zero (JsNumber.ofInt z))))]⟩ ∧
    (entriesOf P L payer = [] →
      (getBalance P (mcPay P SECRET uuid now L req).payments (.str payer)).res =
        ⟨200, .obj [("ok", .bool true), ("user", .str payer),
          ("balance", .num (JsNumber.add (balanceOf P L payer) (JsNumber.ofInt z)))]⟩) ∧
    (∀ ks : List Nat,
      (entriesOf P L payer).map Entry.amount =
        ks.map (fun (k : Nat) => JsNumber.ofInt (k : Int)) →
      0 ≤ z → z.toNat + ks.sum < 9007199254740992 →
      (getBalance P (mcPay P SECRET uuid now L req).payments (.str payer)).res =
        ⟨200, .obj [("ok", .bool true), ("user", .str payer),
          ("balance", .num (JsNumber.add (balanceOf P L payer) (JsNumber.ofInt z)))]⟩) ∧
    (L = [] → z = 10 →
      (getBalance P (mcPay P SECRET uuid now L req).payments (.str payer)).res =
        ⟨200, .obj [("ok", .bool true), ("user", .str payer), ("balance", .num ten)]⟩) := by
  have hv := validate_of_fields payload payer ts (JsNumber.ofInt z) htype hpayer hpne hamount
    (JsNumber.ofInt_ne_nan z) hts htne
  have hrun := mcPay_of_valid P SECRET uuid now L req payload payer ts (JsNumber.ofInt z)
    hauth hp hv
  have hzero : JsNumber.zero ≠ JsNumber.negZero := by
    simp [JsNumber.zero, JsNumber.negZero]
  have hbal : (getBalance P (mcPay P SECRET uuid now L req).payments (.str payer)).res =
      ⟨200, .obj [("ok", .bool true), ("user", .str payer),
        ("balance", .num ((entriesOf P L payer).foldl
          (fun sum p => JsNumber.add sum p.amount)
          (JsNumber.add JsNumber.zero (JsNumber.ofInt z))))]⟩ := by
    rw [hrun, getBalance_of_ne P _ payer (by rw [htrim]; exact hpne), htrim]
    simp only [insert_of_length_lt _ L hlen]
    rw [balanceOf_cons_match P _ L payer rfl]
    simp only
    have hf := foldl_amountOrZero (entriesOf P L payer)
      (fun e he => reachable_amount_ne_nan P SECRET L hL e
        (by unfold entriesOf at he; exact List.mem_of_mem_filter he))
      (JsNumber.add JsNumber.zero (JsNumber.ofInt z)) (JsNumber.add_ne_negZero _ _ hzero)
    rw [add_amountOrZero _ _ hzero (JsNumber.ofInt_ne_nan z), hf]
  refine ⟨by rw [hrun], hbal, fun hnone => ?_, fun ks hks hz0 hsum => ?_, fun hnil hz => ?_⟩
  · have hb : balanceOf P L payer = JsNumber.zero := by
      unfold balanceOf
      unfold entriesOf at hnone
      rw [hnone]
      rfl
    rw [hbal, hnone, hb]
    simp only [List.foldl_nil]
  · have hzn : z = ((z.toNat : Nat) : Int) := (Int.toNat_of_nonneg hz0).symm
    have hz0' : JsNumber.zero = JsNumber.ofMag false (0 * 2 ^ 1074) := by
      rw [Nat.zero_mul, JsNumber.ofMag_zero]
      rfl
    have hzv : JsNumber.ofInt z = JsNumber.ofMag false (z.toNat * 2 ^ 1074) := by
      rw [hzn, JsNumber.ofInt_natCast, Int.toNat_ofNat]
    have hmap : ∀ s : JsNumber,
        (entriesOf P L payer).foldl (fun sum p => JsNumber.add sum p.amount) s =
          (ks.map (fun (k : Nat) => JsNumber.ofInt (k : Int))).foldl JsNumber.add s := by
      intro s
      rw [← hks, List.foldl_map]
    have hb : balanceOf P L payer = JsNumber.ofMag false (ks.sum * 2 ^ 1074) := by
      rw [balanceOf_eq_sum P L payer (reachable_amount_ne_nan P SECRET L hL)]
      unfold sumOfAmounts
      rw [hmap, hz0', foldl_add_nat ks 0 (by omega), Nat.zero_add]
    rw [hbal, hmap, hb, hzv, hz0', JsNumber.ofMag_nat_add 0 z.toNat (by omega), Nat.zero_add,
      foldl_add_nat ks z.toNat (by omega), JsNumber.ofMag_nat_add ks.sum z.toNat (by omega),
      Nat.add_comm]
  · rw [hbal, hnil, hz]
    have h10 : JsNumber.add JsNumber.zero (JsNumber.ofInt 10) = ten := by decide!
    simp only [entriesOf, List.filter_nil, List.foldl_nil]
    rw [h10]

/-- The end-to-end example of the specification on the empty ledger. -/
theorem C18_post_then_balance_witness :
    (mcPay samplePlatform defaultSecret "id-1" "2024-01-01T00:00:01.000Z" []
        bobRequest).res = ⟨200, okBody⟩ ∧
      (getBalance samplePlatform (mcPay samplePlatform defaultSecret "id-1"
        "2024-01-01T00:00:01.000Z" [] bobRequest).payments (.str "Bob")).res =
        ⟨200, .obj [("ok", .bool true), ("user", .str "Bob"), ("balance", .num ten)]⟩ := by
  have h10 : JsNumber.ofInt 10 = ten := by decide!
  have h := C18_post_then_balance samplePlatform defaultSecret "id-1"
    "2024-01-01T00:00:01.000Z" [] bobRequest bobPayload "Bob" "2024-01-01T00:00:00Z" 10
    Reachable.start (by decide) bobRequest_authenticated (by simp [samplePlatform, bobRequest])
    rfl rfl (by decide) (by decide) (by rw [h10]; rfl) rfl (by decide)
  exact ⟨h.1, h.2.2.2.2 rfl rfl⟩

/-! ## Eviction and balance -/

theorem amountOrZero_one : amountOrZero one = one := by decide!

theorem foldl_ones (l : List Nat) :
    ∀ s : JsNumber, (l.map oneBob).foldl
      (fun sum p => JsNumber.add sum (amountOrZero p.amount)) s =
        (fun s => JsNumber.add s one)^[l.length] s := by
  induction l with
  | nil => intro s; rfl
  | cons i l ih =>
    intro s
    simp only [List.map_cons, List.foldl_cons, List.length_cons, Function.iterate_succ_apply]
    rw [ih]
    have : (oneBob i).amount = one := rfl
    rw [this, amountOrZero_one]

theorem foldl_ones_plain (l : List Nat) :
    ∀ s : JsNumber, (l.map oneBob).foldl (fun sum p => JsNumber.add sum p.amount) s =
        (fun s => JsNumber.add s one)^[l.length] s := by
  induction l with
  | nil => intro s; rfl
  | cons i l ih =>
    intro s
    simp only [List.map_cons, List.foldl_cons, List.length_cons, Function.iterate_succ_apply]
    rw [ih]
    rfl

/-- Adding `1` to `0` a number `n` of times gives the integer `n`, below `2^53`. -/
theorem iterate_add_one (n : Nat) (h53 : n < 2 * 4503599627370496) :
    (fun s => JsNumber.add s one)^[n] JsNumber.zero = JsNumber.ofMag false (n * 2 ^ 1074) := by
  induction n with
  | zero =>
    rw [Function.iterate_zero, id_eq, Nat.zero_mul, JsNumber.ofMag_zero]
    rfl
  | succ k ih =>
    rw [Function.iterate_succ_apply', ih (by omega)]
    exact JsNumber.ofMag_nat_add_one k h53

theorem ofMag_twoHundred : JsNumber.ofMag false (200 * 2 ^ 1074) = twoHundred := by decide!

/-- Two hundred additions of `1`, starting from `0`, give `200`. -/
theorem iterate_add_one_200 :
    (fun s => JsNumber.add s one)^[200] JsNumber.zero = twoHundred := by
  rw [iterate_add_one 200 (by decide), ofMag_twoHundred]

theorem twoHundred_add_one : JsNumber.add twoHundred one = twoHundredOne := by decide!

theorem balanceOf_ones (P : Platform) (l : List Nat) :
    balanceOf P (l.map oneBob) "Bob" = (fun s => JsNumber.add s one)^[l.length] JsNumber.zero := by
  unfold balanceOf
  have hf : (l.map oneBob).filter
      (fun p => decide (P.toLowerCase p.payer = P.toLowerCase "Bob")) = l.map oneBob := by
    rw [List.filter_eq_self]
    intro a ha
    obtain ⟨i, _, hi⟩ := List.mem_map.mp ha
    subst hi
    simp [oneBob]
  rw [hf, foldl_ones]

theorem balanceOf_eq_foldl (P : Platform) (L : List Entry) (u : String) :
    balanceOf P L u = (entriesOf P L u).foldl
      (fun sum p => JsNumber.add sum (amountOrZero p.amount)) JsNumber.zero := rfl

theorem entriesOf_append (P : Platform) (A B : List Entry) (u : String) :
    entriesOf P (A ++ B) u = entriesOf P A u ++ entriesOf P B u := by
  unfold entriesOf
  rw [List.filter_append]

theorem entriesOf_of_no_match (P : Platform) (A : List Entry) (u : String)
    (h : ∀ x ∈ A, P.toLowerCase x.payer ≠ P.toLowerCase u) : entriesOf P A u = [] := by
  unfold entriesOf
  rw [List.filter_eq_nil_iff]
  intro p hp
  simpa using h p hp

/-- Inserting an entry of another payer into a full ledger: the balance before is
the balance after plus the amount of the evicted tail entry. -/
theorem balanceOf_evict (P : Platform) (L : List Entry) (t e : Entry) (u : String)
    (hlen : (L ++ [t]).length = 200) (ht : P.toLowerCase t.payer = P.toLowerCase u)
    (he : P.toLowerCase e.payer ≠ P.toLowerCase u) (hnan : t.amount ≠ JsNumber.nan) :
    insert e (L ++ [t]) = e :: L ∧
      balanceOf P (L ++ [t]) u =
        JsNumber.add (balanceOf P (insert e (L ++ [t])) u) t.amount := by
  have hL : L.length = 199 := by
    simp only [List.length_append, List.length_singleton] at hlen
    omega
  have hins : insert e (L ++ [t]) = e :: L := by
    rw [insert_eq, List.take_succ_cons, List.take_append_eq_append_take, hL]
    simp [List.take_of_length_le (Nat.le_of_eq hL)]
  refine ⟨hins, ?_⟩
  rw [hins, balanceOf_cons_skip P e L u he, balanceOf_eq_foldl P (L ++ [t]) u,
    entriesOf_append]
  have htail : entriesOf P [t] u = [t] := by
    simp [entriesOf, List.filter, ht]
  rw [htail, List.foldl_append]
  simp only [List.foldl_cons, List.foldl_nil]
  rw [← balanceOf_eq_foldl, add_amountOrZero _ _ (balanceOf_ne_negZero P L u) hnan]

theorem sample_alice_ne_bob (l : List Nat) :
    ∀ x ∈ l.map aliceEntry,
      samplePlatform.toLowerCase x.payer ≠ samplePlatform.toLowerCase "Bob" := by
  intro x hx
  obtain ⟨i, _, hi⟩ := List.mem_map.mp hx
  subst hi
  show samplePlatform.toLowerCase "Alice" ≠ samplePlatform.toLowerCase "Bob"
  decide

theorem one_add_twoPow53 :
    JsNumber.add (JsNumber.add JsNumber.zero (amountOrZero one)) (amountOrZero twoPow53) =
      twoPow53 := by decide!

theorem zero_add_one : JsNumber.add JsNumber.zero (amountOrZero one) = one := by decide!

/-- Claim C19 as stated fails in its general part. In the full ledger
`fullLedgerA` the tail entry is a payment of `1` by `Bob`; inserting another
payment of `1` by `Bob` leaves Bob's balance at `1`, not at `1 - 1`. In the full
ledger `fullLedgerB` the tail entry is a payment of `9007199254740992` by `Bob`
and Bob's balance is `9007199254740992`; inserting a payment by `Alice` leaves
Bob's balance at `1`, not at `9007199254740992 - 9007199254740992`. -/
theorem C19_counterexample :
    (fullLedgerA.length = 200 ∧ fullLedgerA.getLast? = some (oneBob 0) ∧
      balanceOf samplePlatform fullLedgerA "Bob" = one ∧
      balanceOf samplePlatform (insert (oneBob 200) fullLedgerA) "Bob" = one ∧
      JsNumber.add one (JsNumber.neg (oneBob 0).amount) = JsNumber.zero ∧
      one ≠ JsNumber.zero) ∧
    (fullLedgerB.length = 200 ∧ fullLedgerB.getLast? = some bigBob ∧
      balanceOf samplePlatform fullLedgerB "Bob" = twoPow53 ∧
      balanceOf samplePlatform (insert (aliceEntry 200) fullLedgerB) "Bob" = one ∧
      JsNumber.add twoPow53 (JsNumber.neg bigBob.amount) = JsNumber.zero ∧
      one ≠ JsNumber.zero) := by
  have hbob : ∀ e : Entry, e.payer = "Bob" →
      samplePlatform.toLowerCase e.payer = samplePlatform.toLowerCase "Bob" := by
    intro e h; rw [h]
  have hA199 : ((List.range 199).map aliceEntry).length = 199 := by simp
  have hA198 : ((List.range 198).map aliceEntry).length = 198 := by simp
  refine ⟨⟨by simp [fullLedgerA], by simp [fullLedgerA], ?_, ?_, by decide!, by decide⟩,
    ⟨by simp [fullLedgerB], ?_, ?_, ?_, by decide!, by decide⟩⟩
  · rw [balanceOf_eq_foldl, fullLedgerA, entriesOf_append,
      entriesOf_of_no_match _ _ _ (sample_alice_ne_bob _)]
    simp only [List.nil_append, entriesOf, List.filter, oneBob, decide_True, List.foldl_cons,
      List.foldl_nil]
    exact zero_add_one
  · have hins : insert (oneBob 200) fullLedgerA = oneBob 200 :: (List.range 199).map aliceEntry := by
      rw [insert_eq, List.take_succ_cons, fullLedgerA, List.take_append_eq_append_take, hA199]
      simp [List.take_of_length_le (Nat.le_of_eq hA199)]
    rw [hins, balanceOf_cons_match _ _ _ _ (hbob _ rfl),
      entriesOf_of_no_match _ _ _ (sample_alice_ne_bob _)]
    simp only [List.foldl_nil, oneBob]
    exact zero_add_one
  · show ((oneBob 1 :: (List.range 198).map aliceEntry) ++ [bigBob]).getLast? = some bigBob
    rw [List.getLast?_append]
    rfl
  · rw [fullLedgerB, balanceOf_cons_match _ _ _ _ (hbob _ rfl), entriesOf_append,
      entriesOf_of_no_match _ _ _ (sample_alice_ne_bob _)]
    simp only [List.nil_append, entriesOf, List.filter, bigBob, decide_True, List.foldl_cons,
      List.foldl_nil]
    exact one_add_twoPow53
  · have hins : insert (aliceEntry 200) fullLedgerB =
        aliceEntry 200 :: oneBob 1 :: (List.range 198).map aliceEntry := by
      rw [insert_eq, List.take_succ_cons, fullLedgerB, List.take_succ_cons,
        List.take_append_eq_append_take, hA198]
      simp [List.take_of_length_le (Nat.le_of_eq hA198)]
    rw [hins, balanceOf_cons_skip _ _ _ _ (by
        show samplePlatform.toLowerCase "Alice" ≠ samplePlatform.toLowerCase "Bob"
        decide),
      balanceOf_cons_match _ _ _ _ (hbob _ rfl),
      entriesOf_of_no_match _ _ _ (sample_alice_ne_bob _)]
    simp only [List.foldl_nil, oneBob]
    exact zero_add_one

/-- Claim C19, amended. After 201 payments of amount `1` by `Bob` into the empty
ledger, `GET /balance?user=Bob` returns `200` while the amounts accepted add up
to `201`. In general, when a reachable ledger is full and an entry of another
payer is inserted, the tail entry is evicted and its payer's balance before the
insertion equals the balance after it plus the evicted amount. -/
theorem C19_balance_forgets_evicted (P : Platform) (SECRET : String) :
    ((getBalance P (insertAll (onePayments 201) []) (.str "Bob")).res =
        ⟨200, .obj [("ok", .bool true), ("user", .str "Bob"), ("balance", .num twoHundred)]⟩ ∧
      sumOfAmounts (onePayments 201) = twoHundredOne ∧ twoHundred ≠ twoHundredOne) ∧
    (∀ (L : List Entry) (t e : Entry) (u : String), Reachable P SECRET (L ++ [t]) →
      (L ++ [t]).length = 200 → P.toLowerCase t.payer = P.toLowerCase u →
      P.toLowerCase e.payer ≠ P.toLowerCase u →
      insert e (L ++ [t]) = e :: L ∧
      balanceOf P (L ++ [t]) u =
        JsNumber.add (balanceOf P (insert e (L ++ [t])) u) t.amount) := by
  refine ⟨⟨?_, ?_, by decide⟩, fun L t e u hR hlen ht he => ?_⟩
  · have htrim : jsTrim "Bob" = "Bob" := by decide
    have hins : insertAll (onePayments 201) [] =
        ((List.range 201).reverse.take 200).map oneBob := by
      rw [insertAll_nil_eq, onePayments, ← List.map_reverse, List.map_take]
    have hlen : ((List.range 201).reverse.take 200).length = 200 := by simp
    rw [getBalance_of_ne P _ "Bob" (by decide), htrim, hins, balanceOf_ones, hlen,
      iterate_add_one_200]
  · unfold sumOfAmounts onePayments
    rw [foldl_ones_plain]
    have hlen : (List.range 201).length = 200 + 1 := by simp
    rw [hlen, Function.iterate_succ_apply', iterate_add_one_200, twoHundred_add_one]
  · exact balanceOf_evict P L t e u hlen ht he
      (reachable_amount_ne_nan P SECRET _ hR t (by simp))

/-! ## Payers with surrounding white space -/

theorem trimChars_eq_rdropWhile (l : List Char) :
    trimChars l = (l.dropWhile isJsWhitespace).rdropWhile isJsWhitespace := rfl

/-- A trimmed text has no leading and no trailing white space. -/
theorem hasSurroundingWhitespace_jsTrim (s : String) :
    hasSurroundingWhitespace (jsTrim s) = false := by
  have hstart : startsWithWhitespace (jsTrim s) = false := by
    unfold startsWithWhitespace
    show (match trimChars s.data with
      | c :: _ => isJsWhitespace c
      | [] => false) = false
    cases hT : trimChars s.data with
    | nil => rfl
    | cons c cs =>
      simp only
      have hpre : trimChars s.data <+: s.data.dropWhile isJsWhitespace := by
        rw [trimChars_eq_rdropWhile]
        exact List.rdropWhile_prefix _ _
      rw [hT] at hpre
      obtain ⟨rest, hrest⟩ := hpre
      have h := List.head?_dropWhile_not isJsWhitespace s.data
      rw [← hrest] at h
      simpa using h
  have hend : endsWithWhitespace (jsTrim s) = false := by
    unfold endsWithWhitespace
    show (match (trimChars s.data).reverse with
      | c :: _ => isJsWhitespace c
      | [] => false) = false
    have hrev : (trimChars s.data).reverse =
        ((s.data.dropWhile isJsWhitespace).reverse).dropWhile isJsWhitespace := by
      unfold trimChars
      rw [List.reverse_reverse]
    rw [hrev]
    have h := List.head?_dropWhile_not isJsWhitespace (s.data.dropWhile isJsWhitespace).reverse
    cases hB : ((s.data.dropWhile isJsWhitespace).reverse).dropWhile isJsWhitespace with
    | nil => rfl
    | cons c cs =>
      rw [hB] at h
      simpa using h
  simp [hasSurroundingWhitespace, hstart, hend]

/-- A payer with surrounding white space matches no trimmed query, provided
lower-casing keeps white space at the ends of a text. -/
theorem payer_ne_trimmed_query (P : Platform) (payer q : String)
    (hlow : ∀ s, hasSurroundingWhitespace (P.toLowerCase s) = hasSurroundingWhitespace s)
    (hws : hasSurroundingWhitespace payer = true) :
    P.toLowerCase payer ≠ P.toLowerCase (jsTrim q) := by
  intro h
  have h1 := hlow payer
  have h2 := hlow (jsTrim q)
  rw [h, h2, hasSurroundingWhitespace_jsTrim, hws] at h1
  cases h1

theorem isJsWhitespace_toLower (c : Char) : isJsWhitespace c.toLower = isJsWhitespace c := by
  unfold Char.toLower
  simp only
  split
  · rename_i h
    have hc : c = Char.ofNat c.toNat := (Char.ofNat_toNat c).symm
    obtain ⟨h1, h2⟩ := h
    generalize c.toNat = n at hc h1 h2
    subst hc
    interval_cases n <;> decide
  · rfl

theorem asciiLower_keeps_surrounding (s : String) :
    hasSurroundingWhitespace (⟨s.data.map Char.toLower⟩ : String) =
      hasSurroundingWhitespace s := by
  unfold hasSurroundingWhitespace startsWithWhitespace endsWithWhitespace
  simp only
  congr 1
  · cases s.data with
    | nil => rfl
    | cons c cs => simp [isJsWhitespace_toLower]
  · rw [← List.map_reverse]
    cases s.data.reverse with
    | nil => rfl
    | cons c cs => simp [isJsWhitespace_toLower]

theorem getBalance_skip (P : Platform) (L1 L2 : List Entry) (e : Entry) (q : QueryValue)
    (hskip : ∀ u : String, P.toLowerCase e.payer ≠ P.toLowerCase (jsTrim u)) :
    getBalance P (L1 ++ e :: L2) q =
      ⟨(getBalance P (L1 ++ L2) q).res, L1 ++ e :: L2, []⟩ := by
  have hb : ∀ u : String, balanceOf P (L1 ++ e :: L2) (jsTrim u) =
      balanceOf P (L1 ++ L2) (jsTrim u) := by
    intro u
    unfold balanceOf
    rw [List.filter_append, List.filter_cons, List.filter_append]
    simp [hskip u]
  unfold getBalance
  simp only
  split
  · rfl
  · rw [hb]

/-- Claim C20. Provided lower-casing keeps white space at the ends of a text (as
`toLowerCase` does), a payment that passes the signature check and the field
checks and whose payer has leading or trailing white space is answered 200 and
stored with the payer as sent: the ledger after the request is the first 200
elements of the new entry followed by the old ledger, with the new entry at
index 0. For every query value the filter of `GET /balance` leaves that entry
out, in the ledger after the request and in whatever ledger it sits, so the
balance returned is the one of the ledger without it. A non-empty payer made
only of white space is such a payer. -/
theorem C20_untrimmed_payer_unreachable (P : Platform) (SECRET uuid now : String)
    (L : List Entry) (req : Request) (payload : JsVal) (payer ts : String) (amount : JsNumber)
    (hlow : ∀ s, hasSurroundingWhitespace (P.toLowerCase s) = hasSurroundingWhitespace s)
    (hauth : Authenticated P SECRET req) (hp : P.jsonParse req.body = some payload)
    (htype : payload.prop "type" = some (.str "pay_received"))
    (hpayer : payload.prop "payer" = some (.str payer))
    (hws : hasSurroundingWhitespace payer = true)
    (hamount : payload.prop "amount" = some (.num amount)) (hnan : amount ≠ .nan)
    (hts : payload.prop "ts" = some (.str ts)) (htne : ts ≠ "") :
    ∃ e : Entry,
      (mcPay P SECRET uuid now L req).res = ⟨200, okBody⟩ ∧
      (mcPay P SECRET uuid now L req).payments = (e :: L).take 200 ∧
      (mcPay P SECRET uuid now L req).payments.head? = some e ∧
      e ∈ (mcPay P SECRET uuid now L req).payments ∧
      e.payer = payer ∧ e.amount = amount ∧
      (∀ (q : QueryValue) (M : List Entry), e ∉ entriesOf P M (jsTrim (queryToString q))) ∧
      (∀ q : QueryValue,
        e ∉ entriesOf P (mcPay P SECRET uuid now L req).payments
          (jsTrim (queryToString q))) ∧
      (∀ (q : QueryValue) (L1 L2 : List Entry),
        getBalance P (L1 ++ e :: L2) q =
          ⟨(getBalance P (L1 ++ L2) q).res, L1 ++ e :: L2, []⟩) ∧
      (∀ s : String, s ≠ "" → (∀ c ∈ s.data, isJsWhitespace c = true) →
        hasSurroundingWhitespace s = true) := by
  have hpne : payer ≠ "" := by
    intro h
    rw [h] at hws
    cases hws
  have hv := validate_of_fields payload payer ts amount htype hpayer hpne hamount hnan hts htne
  have hrun := mcPay_of_valid P SECRET uuid now L req payload payer ts amount hauth hp hv
  have hskip : ∀ (q : QueryValue) (M : List Entry),
      ({ id := uuid, payer := payer, amount := amount,
         raw := orEmpty (payload.prop "raw"), ts := ts, receivedAt := now } : Entry) ∉
        entriesOf P M (jsTrim (queryToString q)) := by
    intro q M hmem
    unfold entriesOf at hmem
    have := (List.mem_filter.mp hmem).2
    simp only [decide_eq_true_eq] at this
    exact payer_ne_trimmed_query P payer _ hlow hws this
  refine ⟨{ id := uuid, payer := payer, amount := amount,
            raw := orEmpty (payload.prop "raw"), ts := ts, receivedAt := now },
    by rw [hrun], by rw [hrun]; rfl, by rw [hrun]; simp [insert, splice, unshift],
    by rw [hrun]; simp [insert, splice, unshift], rfl, rfl, hskip, fun q => hskip q _, ?_, ?_⟩
  · intro q L1 L2
    exact getBalance_skip P L1 L2 _ q (fun u => payer_ne_trimmed_query P payer u hlow hws)
  · intro s hs hall
    unfold hasSurroundingWhitespace startsWithWhitespace
    cases hd : s.data with
    | nil =>
      exfalso
      apply hs
      apply String.ext
      rw [hd]
    | cons c cs =>
      have : isJsWhitespace c = true := hall c (by rw [hd]; exact List.mem_cons_self _ _)
      simp [this]

/-- The signed payment of the end-to-end example with the payer ` Bob`. -/
theorem C20_untrimmed_payer_unreachable_witness :
    ∃ e : Entry,
      (mcPay (tablePlatform spaceBody spaceDigest spacePayload) defaultSecret "id-1"
        "2024-01-01T00:00:01.000Z" [] ⟨some spaceDigest, spaceBody⟩).payments =
        (e :: []).take 200 ∧
      (mcPay (tablePlatform spaceBody spaceDigest spacePayload) defaultSecret "id-1"
        "2024-01-01T00:00:01.000Z" [] ⟨some spaceDigest, spaceBody⟩).payments.head? =
        some e ∧
      e.payer = " Bob" ∧
      ∀ (q : QueryValue) (M : List Entry),
        e ∉ entriesOf (tablePlatform spaceBody spaceDigest spacePayload) M
          (jsTrim (queryToString q)) := by
  obtain ⟨e, _, h2, hh, _, h3, _, h5, _⟩ := C20_untrimmed_payer_unreachable
    (tablePlatform spaceBody spaceDigest spacePayload) defaultSecret "id-1"
    "2024-01-01T00:00:01.000Z" [] ⟨some spaceDigest, spaceBody⟩ spacePayload " Bob"
    "2024-01-01T00:00:00Z" ten asciiLower_keeps_surrounding
    (tablePlatform_authenticated _ _ _ ⟨by decide, by decide⟩)
    (tablePlatform_jsonParse _ _ _) rfl rfl (by decide) rfl (by decide) rfl (by decide)
  exact ⟨e, h2, hh, h3, h5⟩

end McPay
